import Mathlib

/-!
# Verification of the ghc-import pipeline

Shallow embedding of the metadata-normalization, subject-deduplication,
hierarchy-resolution and series-packaging pipeline of `run.py` (and the
shared packaging logic of `script.py`), together with proofs of the
behavioural properties claimed for it.

Python dictionaries with string keys and string values are embedded as
association lists `List (String × String)`; `dictSet` mirrors Python's
`d[k] = v` (overwrite in place keeping the key's position, else append),
`dlookup` mirrors `d.get(k)`, `dictDel` mirrors `del d[k]`.  Python
truthiness of an optional string (`None` and `""` are falsy) is `pyTruthy`.
Fallible Python code (raising `KeyError`, `AttributeError`, ...) is
embedded in the `Except Err` monad.
-/

/-- Python truthiness of a `str`-or-`None` value: `None` and `""` are falsy. -/
def pyTruthy : Option String → Bool
  | none => false
  | some s => s ≠ ""

/-- `d.get(k)` on a Python dict embedded as an association list:
the first entry with the given key (entries produced by `dictSet` have
unique keys, so this is the dict lookup). -/
def dlookup (d : List (String × String)) (k : String) : Option String :=
  (d.find? (fun kv => kv.1 == k)).map (·.2)

/-- `d[k] = v` on a Python dict: overwrite the value in place if the key is
present (keeping its position, as CPython dicts do), otherwise append. -/
def dictSet (d : List (String × String)) (k v : String) : List (String × String) :=
  if d.any (fun kv => kv.1 == k) then
    d.map (fun kv => if kv.1 == k then (k, v) else kv)
  else
    d ++ [(k, v)]

/-- `del d[k]` on a Python dict. -/
def dictDel (d : List (String × String)) (k : String) : List (String × String) :=
  d.filter (fun kv => kv.1 ≠ k)

/-- A Python dict built from a sequence of `k, v` assignments (dict
comprehension semantics: later assignments to the same key overwrite). -/
def dictOfList (l : List (String × String)) : List (String × String) :=
  l.foldl (fun d kv => dictSet d kv.1 kv.2) []

/-- First-occurrence deduplication, mirroring the insertion order of keys of
a Python dict filled by a left-to-right loop. -/
def dedupFirst {α : Type} [DecidableEq α] (l : List α) : List α :=
  l.foldl (fun acc a => if a ∈ acc then acc else acc ++ [a]) []

/-- The errors Python raises in the embedded fragments, plus the
data-integrity error of the subject resolver (the spec's
`AmbiguousIdentityError`; `run.py` raises it as
`Exception("Too many matching study, can't decide what to do")`). -/
inductive Err where
  | ambiguousIdentityError
  | keyError
  | indexError
  | typeError
  | valueError
  | attributeError
  | notFoundError
  | recursionError
  | fileExistsError
  deriving DecidableEq, Repr

/-- Python `d[k]` (dict indexing): `KeyError` when the key is absent. -/
def keyIndex (o : Option String) : Except Err String :=
  match o with
  | some v => .ok v
  | none => .error .keyError

/-- Python's `str.startswith(pat)`, computed on the character list. -/
def pyIsPrefixOf (pat s : String) : Bool :=
  List.isPrefixOf pat.toList s.toList

/-- `str.replace` on character lists, replacing the non-overlapping
occurrences of `pat` left to right; structural recursion on an explicit
length bound (always called with the list's own length). -/
def replaceCharsAux (pat rep : List Char) : Nat → List Char → List Char
  | 0, s => s
  | _ + 1, [] => []
  | n + 1, c :: rest =>
      if pat ≠ [] ∧ pat.isPrefixOf (c :: rest) then
        rep ++ replaceCharsAux pat rep n ((c :: rest).drop pat.length)
      else
        c :: replaceCharsAux pat rep n rest

/-- Python's `s.replace(pat, rep)` (every non-overlapping occurrence, left
to right; the embedded code never calls it with an empty pattern). -/
def pyReplace (s pat rep : String) : String :=
  String.mk (replaceCharsAux pat.toList rep.toList s.toList.length s.toList)

/-- Split a character list on a separator character. -/
def splitCharList (sep : Char) : List Char → List (List Char)
  | [] => [[]]
  | c :: rest =>
      match splitCharList sep rest with
      | [] => [[c]]
      | h :: t => if c = sep then [] :: h :: t else (c :: h) :: t

/-- Python's `s.split(sep)` for a one-character separator. -/
def pySplit (s : String) (sep : Char) : List String :=
  (splitCharList sep s.toList).map String.mk

def dropLeadingSpaces : List Char → List Char
  | [] => []
  | c :: rest => if c = ' ' then dropLeadingSpaces rest else c :: rest

/-- Python's `s.strip()` on space-joined names. -/
def pyStrip (s : String) : String :=
  String.mk ((dropLeadingSpaces (dropLeadingSpaces s.toList).reverse).reverse)

/-- Python's `s.lower()`. -/
def pyLower (s : String) : String :=
  String.mk (s.toList.map Char.toLower)

/-! ## Canonical metadata (`get_metadata`, run.py lines 484-493)

The tree `{'session': {..., 'subject': {...}}, 'acquisition': {...}}` is
embedded as a structure.  The `files` list that `pkg_series` installs under
`metadata['acquisition']['files']` is kept as a dedicated field of the
acquisition group (the dict is heterogeneous: string values plus one list
value), and the top-level `patient_id` key that `pkg_series` adds is the
`patientId` field. -/

/-- One entry of `metadata['acquisition']['files']`: `{'name': ..., 'type': ...}`. -/
structure FileEntry where
  name : String
  type : String
  deriving DecidableEq, Repr

/-- The `metadata['acquisition']` dict: its string-valued entries plus the
optional `files` entry (a list of file dicts). -/
structure AcquisitionGroup where
  kvs : List (String × String)
  files : Option (List FileEntry)
  deriving DecidableEq, Repr

/-- The canonical metadata tree all adapters converge to. -/
structure CanonicalMetadata where
  /-- string-valued entries of `metadata['session']` (minus the nested subject) -/
  session : List (String × String)
  /-- `metadata['session']['subject']` -/
  sessionSubject : List (String × String)
  /-- `metadata['acquisition']`, absent after `del metadata['acquisition']` -/
  acquisition : Option AcquisitionGroup
  /-- top-level `metadata['patient_id']` (imaging only) -/
  patientId : Option String
  deriving DecidableEq, Repr

/-- The attribute-group collection of `get_metadata`: every attribute of the
record whose name starts with `group + "_"` and whose value is truthy, with
the prefix removed from the name via Python's `str.replace` (which removes
every occurrence, not only the leading one), assembled with dict semantics
(a later attribute colliding on the stripped name overwrites). -/
def groupAttrs (attrs : List (String × String)) (group : String) : List (String × String) :=
  let pfx := group ++ "_"
  dictOfList ((attrs.filter (fun kv => pyIsPrefixOf pfx kv.1 && kv.2 ≠ "")).map
    (fun kv => (pyReplace kv.1 pfx "", kv.2)))

/-- `get_metadata(dcm)` (run.py lines 484-493) over the record's attribute
dictionary (Python's `dir(dcm)` + `getattr`, with `None` rendered as `""`).
The final `metadata['session']['subject'] = metadata.pop('subject')`
overwrites any plain `subject` entry of the session group, which the
separate `sessionSubject` field models (any same-named string entry is
dropped). -/
def get_metadata (attrs : List (String × String)) : CanonicalMetadata :=
  { session := dictDel (groupAttrs attrs "session") "subject"
    sessionSubject := groupAttrs attrs "subject"
    acquisition := some { kvs := groupAttrs attrs "acquisition", files := none }
    patientId := none }

/-- The per-group attribute sequence before dict assembly: the filtered
prefixed, non-empty attributes with the prefix occurrences removed from
their names (`groupAttrs attrs g = dictOfList (strippedGroup attrs g)`). -/
def strippedGroup (attrs : List (String × String)) (group : String) :
    List (String × String) :=
  (attrs.filter (fun kv => pyIsPrefixOf (group ++ "_") kv.1 && kv.2 ≠ "")).map
    (fun kv => (pyReplace kv.1 (group ++ "_") "", kv.2))

/-- The group dicts of a produced tree, for stating normalization
properties uniformly over the three group names. -/
def metadataGroup (m : CanonicalMetadata) : String → List (String × String)
  | "subject" => m.sessionSubject
  | "session" => m.session
  | "acquisition" => (m.acquisition.map (·.kvs)).getD []
  | _ => []

/-- The normalization claim as the spec words it: every attribute whose
name is prefixed with the group name and whose value is non-empty appears
under that group with exactly the LEADING group prefix stripped from its
name.  (Stated from the spec, to be compared with the behaviour of
`get_metadata`.) -/
def leadingStripClaim (attrs : List (String × String)) : Prop :=
  ∀ g ∈ (["subject", "session", "acquisition"] : List String), ∀ kv ∈ attrs,
    pyIsPrefixOf (g ++ "_") kv.1 = true → kv.2 ≠ "" →
    dlookup (metadataGroup (get_metadata attrs) g) (kv.1.drop (g ++ "_").length) =
      some kv.2

/-! ## JSON documents

`json.dumps(metadata, default=metadata_encoder)` / `json.loads` are embedded
at the level of the JSON document tree: `encodeMetadata` is the document
written into the archive comment, `decodeMetadata` the parse of such a
document back into the tree (the textual layer of the standard `json`
module is taken as a faithful bijection between documents and their
serializations).  All timestamp values of the embedded records are already
ISO strings, which is the "modulo timestamp string formatting" of the
round-trip property. -/

inductive Json where
  | str : String → Json
  | arr : List Json → Json
  | obj : List (String × Json) → Json

/-- Encode a string-valued dict fragment. -/
def strEntries (d : List (String × String)) : List (String × Json) :=
  d.map (fun kv => (kv.1, Json.str kv.2))

/-- Encode one `files` entry. -/
def encodeFileEntry (f : FileEntry) : Json :=
  Json.obj [("name", Json.str f.name), ("type", Json.str f.type)]

/-- Encode the acquisition group (the `files` key comes last, as it is the
entry assigned last by `pkg_series`). -/
def encodeAcquisition (a : AcquisitionGroup) : List (String × Json) :=
  strEntries a.kvs ++
    (match a.files with
     | some fs => [("files", Json.arr (fs.map encodeFileEntry))]
     | none => [])

/-- The JSON document `json.dumps(metadata, default=metadata_encoder)`
produces for a canonical metadata tree. -/
def encodeMetadata (m : CanonicalMetadata) : Json :=
  Json.obj
    ([("session", Json.obj (strEntries m.session ++
        [("subject", Json.obj (strEntries m.sessionSubject))]))] ++
     (match m.acquisition with
      | some a => [("acquisition", Json.obj (encodeAcquisition a))]
      | none => []) ++
     (match m.patientId with
      | some p => [("patient_id", Json.str p)]
      | none => []))

/-- Decode a string-valued dict fragment. -/
def decodeStrEntries : List (String × Json) → Option (List (String × String))
  | [] => some []
  | (k, Json.str v) :: rest => (decodeStrEntries rest).map (fun d => (k, v) :: d)
  | _ => none

/-- Split a session object into its string entries and the trailing
nested subject object. -/
def splitSubject : List (String × Json) → Option (List (String × String) × List (String × String))
  | (k, Json.str v) :: rest => (splitSubject rest).map (fun kvs => ((k, v) :: kvs.1, kvs.2))
  | [(k, Json.obj subj)] =>
      if k = "subject" then (decodeStrEntries subj).map (fun s => ([], s)) else none
  | _ => none

def decodeFileEntry : Json → Option FileEntry
  | Json.obj [("name", Json.str n), ("type", Json.str t)] => some { name := n, type := t }
  | _ => none

def decodeFileEntries : List Json → Option (List FileEntry)
  | [] => some []
  | j :: rest => do
      let f ← decodeFileEntry j
      let fs ← decodeFileEntries rest
      pure (f :: fs)

/-- Split an acquisition object into its string entries and the trailing
optional `files` array. -/
def splitFiles : List (String × Json) → Option AcquisitionGroup
  | [] => some { kvs := [], files := none }
  | (k, Json.str v) :: rest => (splitFiles rest).map (fun a => { a with kvs := (k, v) :: a.kvs })
  | [(k, Json.arr fjs)] =>
      if k = "files" then (decodeFileEntries fjs).map (fun fs => { kvs := [], files := some fs })
      else none
  | _ => none

/-- Decode the optional acquisition and patient_id entries following the
session entry. -/
def decodeTail : List (String × Json) → Option (Option AcquisitionGroup × Option String)
  | [] => some (none, none)
  | [(k, Json.str p)] => if k = "patient_id" then some (none, some p) else none
  | (k, Json.obj aEntries) :: rest =>
      if k = "acquisition" then
        match splitFiles aEntries, rest with
        | some a, [] => some (some a, none)
        | some a, [(k2, Json.str p)] => if k2 = "patient_id" then some (some a, some p) else none
        | _, _ => none
      else none
  | _ => none

/-- Parse a JSON document back into a canonical metadata tree. -/
def decodeMetadata : Json → Option CanonicalMetadata
  | Json.obj (("session", Json.obj sEntries) :: rest) => do
      let (sess, subj) ← splitSubject sEntries
      let (acq, pid) ← decodeTail rest
      pure { session := sess, sessionSubject := subj, acquisition := acq, patientId := pid }
  | _ => none

/-! ## Destination hierarchy (`Importer`, run.py lines 55-147)

The destination platform's state visible to the importer is the set of
subject, session and acquisition nodes of the configured project.  The
Flywheel client calls are embedded as pure state transitions:
`get_project_subjects` is a filter of the subject list,
`add_subject`/`add_session`/`add_acquisition` append a node with a fresh id,
and `lookup` of a hierarchical path is a search.  An error result models a
raised exception: no state is returned, so nothing was created. -/

/-- A subject node: opaque id, owning project, and its metadata fields
(`master_code`, `code`, `firstname`, ... accessed via `subject.get(key)`). -/
structure Subject where
  sid : String
  project : String
  attrs : List (String × String)
  deriving DecidableEq, Repr

/-- A session node (the path `group/<project>/<subject>/<label>` resolves it). -/
structure Session where
  sid : String
  project : String
  subject : String
  label : String
  deriving DecidableEq, Repr

/-- An acquisition node under a session. -/
structure Acquisition where
  aid : String
  session : String
  label : String
  deriving DecidableEq, Repr

/-- The destination platform state: the fixed project (`dest_project`) and
the nodes existing under it. -/
structure HierState where
  group : String
  destProject : String
  subjects : List Subject
  sessions : List Session
  acquisitions : List Acquisition
  deriving Repr

/-- The resolved ids returned by `create_target_hierarchy`. -/
structure Hierarchy where
  group : String
  project : String
  subject : String
  session : String
  acquisition : Option String
  deriving DecidableEq, Repr

/-- `get_project_subjects(project_id, filter='master_code=' + code)`: the
subjects of the destination project whose stored `master_code` equals the
given code. -/
def subjectsMatching (st : HierState) (code : String) : List Subject :=
  st.subjects.filter
    (fun s => s.project == st.destProject && dlookup s.attrs "master_code" == some code)

/-- `Importer._get_subject_by_master_code` (run.py lines 73-83): more than
one match raises (the spec's `AmbiguousIdentityError`), one match is
returned, zero is `None`. -/
def get_subject_by_master_code (st : HierState) (code : String) : Except Err (Option Subject) :=
  match subjectsMatching st code with
  | [] => .ok none
  | [s] => .ok (some s)
  | _ => .error .ambiguousIdentityError

/-- The identity fields of the merge loop of `create_target_hierarchy`. -/
def identityKeys : List String :=
  ["code", "firstname", "lastname", "sex", "ethnicity", "type"]

/-- The body of the merge loop for a found subject: when both the stored
value and the freshly derived value are truthy, the key is deleted from the
fresh payload. -/
def mergeStep (s : Subject) (m : List (String × String)) (key : String) :
    List (String × String) :=
  if pyTruthy (dlookup s.attrs key) && pyTruthy (dlookup m key) then dictDel m key else m

/-- The merge loop of `create_target_hierarchy` (run.py lines 89-93): for
each identity key, when an existing subject was found and both its stored
value and the freshly derived value are truthy, the key is deleted from the
fresh payload ("do not overwrite existing fields"). -/
def mergeSubjectMeta (subject : Option Subject) (meta : List (String × String)) :
    List (String × String) :=
  identityKeys.foldl
    (fun m key =>
      match subject with
      | some s => mergeStep s m key
      | none => m)
    meta

/-- Session block of `create_target_hierarchy` (run.py lines 104-118):
path lookup of `group/<project id>/<subject id>/<session label>`; on
`ApiException` (not found) the session payload (plus `project`, passed
through the JSON encoder, which on these string-valued dicts is the
identity) is posted and the new node fetched. -/
def resolveSession (st : HierState) (subjectId : String) (m : CanonicalMetadata) :
    Except Err (HierState × Session) := do
  let label ← keyIndex (dlookup m.session "label")
  match st.sessions.find?
      (fun s => s.project == st.destProject && s.subject == subjectId && s.label == label) with
  | some s => pure (st, s)
  | none =>
      let s : Session :=
        { sid := "session-" ++ toString st.sessions.length
          project := st.destProject
          subject := subjectId
          label := label }
      pure ({ st with sessions := st.sessions ++ [s] }, s)

/-- Acquisition block of `create_target_hierarchy` (run.py lines 120-139):
only entered when `metadata.get('acquisition')` is truthy (present and a
non-empty dict); path lookup of
`group/<project id>/<subject id>/<session label>/<acquisition label>`; on
not-found the acquisition payload is posted with `session` set and its
`files` entry deleted. -/
def resolveAcquisition (st : HierState) (subjectId : String) (sessionId : String)
    (m : CanonicalMetadata) : Except Err (HierState × Option Acquisition) := do
  match m.acquisition with
  | none => pure (st, none)
  | some ag =>
      if ag.kvs = [] && ag.files = none then
        -- `metadata.get('acquisition')` is an empty dict: falsy, no acquisition
        pure (st, none)
      else do
        let sessLabel ← keyIndex (dlookup m.session "label")
        let acqLabel ← keyIndex (dlookup ag.kvs "label")
        let found :=
          match st.sessions.find?
              (fun s => s.project == st.destProject && s.subject == subjectId
                && s.label == sessLabel) with
          | none => none
          | some s => st.acquisitions.find? (fun a => a.session == s.sid && a.label == acqLabel)
        match found with
        | some a => pure (st, some a)
        | none =>
            let a : Acquisition :=
              { aid := "acquisition-" ++ toString st.acquisitions.length
                session := sessionId
                label := acqLabel }
            pure ({ st with acquisitions := st.acquisitions ++ [a] }, some a)

/-- `Importer.create_target_hierarchy` (run.py lines 85-147): resolve the
subject by master code (raising on ambiguity), trim the fresh subject
payload of identity fields the existing subject already has, create the
subject when none exists (an existing subject is left untouched — the
`else` branch is `pass`), then look up or create session and acquisition. -/
def create_target_hierarchy (st : HierState) (m : CanonicalMetadata) :
    Except Err (HierState × Hierarchy) := do
  let code ← keyIndex (dlookup m.sessionSubject "master_code")
  let subject? ← get_subject_by_master_code st code
  let subjectMeta := mergeSubjectMeta subject? m.sessionSubject
  let (st, subject) ←
    match subject? with
    | none =>
        -- create the subject if not exists (payload gets `project` added)
        let s : Subject :=
          { sid := "subject-" ++ toString st.subjects.length
            project := st.destProject
            attrs := subjectMeta }
        pure (({ st with subjects := st.subjects ++ [s] } : HierState), s)
    | some s =>
        -- TODO in source: just update metadata (no write happens)
        pure ((st : HierState), s)
  let (st, session) ← resolveSession st subject.sid m
  let (st, acq?) ← resolveAcquisition st subject.sid session.sid m
  pure (st,
    { group := st.group
      project := st.destProject
      subject := subject.sid
      session := session.sid
      acquisition := acq?.map (·.aid) })

/-! ## Messaging adapter (`HL7Message`, run.py lines 522-556)

The message JSON delivered by the healthcare store is embedded as a
structure carrying the keys `run.py` reads: `messageType`, `sendTime`,
`parsedData.segments` and `data`.  `datetime.strptime` is embedded by a
format-exact parser returning `ValueError` on mismatch (and `TypeError`
when the argument is `None`). -/

def HL7_SEX_MAPPING : List (String × String) :=
  [("F", "female"), ("M", "male"), ("O", "other"), ("U", "unknown")]

def HL7_ETHNIC_GROUP_MAP : List (String × String) :=
  [("H", "Hispanic or Latino"), ("N", "Not Hispanic or Latino"),
   ("U", "Unknown or Not Reported")]

/-- Python's `a or b` on optional strings: the first operand when truthy,
otherwise the second. -/
def pyOr (a b : Option String) : Option String :=
  if pyTruthy a then a else b

/-- Render an optional string the way `getattr` exposes it to the
truthiness test of `get_metadata` (`None` and `""` are equally falsy). -/
def optStr : Option String → String
  | none => ""
  | some s => s

/-- The digits of a fixed-width numeric field, or `none` when a
non-digit appears. -/
def digitsToNat? (s : String) : Option Nat :=
  if s.length > 0 && s.toList.all Char.isDigit then
    some (s.toList.foldl (fun n c => n * 10 + (c.toNat - 48)) 0)
  else none

/-- `datetime.strptime(value, '%Y%m%d')` on a `dict.get` result:
`TypeError` on `None`, `ValueError` on a malformed string (basic
month/day range checks stand in for the calendar validation). -/
def strptimeYMD8 : Option String → Except Err (Nat × Nat × Nat)
  | none => .error .typeError
  | some s =>
      match digitsToNat? (s.take 4), digitsToNat? ((s.drop 4).take 2),
          digitsToNat? ((s.drop 6).take 2) with
      | some y, some mo, some d =>
          if s.length = 8 && 1 ≤ mo && mo ≤ 12 && 1 ≤ d && d ≤ 31 then .ok (y, mo, d)
          else .error .valueError
      | _, _, _ => .error .valueError

/-- `datetime.strptime(value, '%Y-%m-%dT%H:%M:%SZ')`. -/
def parseSendTime (s : String) : Except Err ((Nat × Nat × Nat) × (Nat × Nat × Nat)) :=
  match digitsToNat? (s.take 4), digitsToNat? ((s.drop 5).take 2),
      digitsToNat? ((s.drop 8).take 2), digitsToNat? ((s.drop 11).take 2),
      digitsToNat? ((s.drop 14).take 2), digitsToNat? ((s.drop 17).take 2) with
  | some y, some mo, some d, some hh, some mi, some ss =>
      if s.length = 20 && (s.drop 4).take 1 = "-" && (s.drop 7).take 1 = "-"
          && (s.drop 10).take 1 = "T" && (s.drop 13).take 1 = ":"
          && (s.drop 16).take 1 = ":" && (s.drop 19).take 1 = "Z"
          && 1 ≤ mo && mo ≤ 12 && 1 ≤ d && d ≤ 31 && hh ≤ 23 && mi ≤ 59 && ss ≤ 61 then
        .ok ((y, mo, d), (hh, mi, ss))
      else .error .valueError
  | _, _, _, _, _, _ => .error .valueError

/-- Zero-padded decimal rendering, as `strftime` emits it. -/
def padNat (w : Nat) (n : Nat) : String :=
  let s := toString n
  String.mk (List.replicate (w - s.length) '0') ++ s

/-- `strftime('%Y-%m-%d')`. -/
def formatYMD (d : Nat × Nat × Nat) : String :=
  padNat 4 d.1 ++ "-" ++ padNat 2 d.2.1 ++ "-" ++ padNat 2 d.2.2

/-- One parsed segment: `{'segmentId': ..., 'fields': {...}}`. -/
structure HL7Segment where
  segmentId : String
  fields : List (String × String)
  deriving DecidableEq, Repr

/-- The message JSON: the keys `run.py` reads. -/
structure HL7MsgJson where
  messageType : String
  sendTime : String
  segments : List HL7Segment
  data : String
  deriving DecidableEq, Repr

/-- `HL7Message.get_hl7_segment` (run.py lines 551-556): the fields of the
first segment with the given id, or `None`. -/
def get_hl7_segment (segments : List HL7Segment) (segmentId : String) :
    Option (List (String × String)) :=
  (segments.find? (fun seg => seg.segmentId == segmentId)).map (·.fields)

/-- The constructed `HL7Message` object: its derived attributes.  The
non-string attributes without a group-name prefix (`msg_json`, `segments`,
`dob`) never pass the prefix filter of `get_metadata` and are not listed in
the attribute dictionary view `hl7Attrs`. -/
structure HL7Msg where
  msgControlId : String
  type : String
  patientId : String
  subjectCode : String
  subjectFirstname : Option String
  subjectLastname : Option String
  subjectSex : Option String
  subjectEthnicity : Option String
  subjectType : Option String
  dob : Nat × Nat × Nat
  sessionLabel : String
  sessionTimestamp : String
  acquisitionTimestamp : String
  acquisitionLabel : String
  deriving DecidableEq, Repr

/-- `HL7Message.__init__` (run.py lines 522-549), in source order:
`msg_control_id` from `segments[0]['fields']['9']` (IndexError / KeyError
when absent), the PID segment lookup (`None.get` raises AttributeError when
there is no PID segment), the patient id with its three-way `or` fallback,
`subject_code = 'ex' + patient_id` (TypeError when the id is `None`), the
mapped demographic fields, the date of birth, and the session/acquisition
labels and timestamps derived from `sendTime`. -/
def hl7Init (msg : HL7MsgJson) : Except Err HL7Msg := do
  let msgControlId ←
    match msg.segments with
    | [] => Except.error Err.indexError
    | s0 :: _ => keyIndex (dlookup s0.fields "9")
  let ty := msg.messageType
  let pid ←
    match get_hl7_segment msg.segments "PID" with
    | some f => Except.ok f
    | none => Except.error Err.attributeError
  let patientId? := pyOr (dlookup pid "3") (pyOr (dlookup pid "3.1") (dlookup pid "3[0].1"))
  let patientId ←
    match patientId? with
    | some p => Except.ok p
    | none => Except.error Err.typeError
  let subjectCode := "ex" ++ patientId
  let subjectFirstname := dlookup pid "5.1"
  let subjectLastname := dlookup pid "5.2"
  let subjectSex := (dlookup pid "8").bind (fun v => dlookup HL7_SEX_MAPPING v)
  let subjectEthnicity := (dlookup pid "22").bind (fun v => dlookup HL7_ETHNIC_GROUP_MAP v)
  let subjectType := if !(pyTruthy (dlookup pid "35")) then some "human" else none
  let dob ← strptimeYMD8 (dlookup pid "7")
  let sendParsed ← parseSendTime msg.sendTime
  let sessionLabel := "HL7_" ++ patientId ++ "_" ++ formatYMD sendParsed.1
  pure
    { msgControlId := msgControlId
      type := ty
      patientId := patientId
      subjectCode := subjectCode
      subjectFirstname := subjectFirstname
      subjectLastname := subjectLastname
      subjectSex := subjectSex
      subjectEthnicity := subjectEthnicity
      subjectType := subjectType
      dob := dob
      sessionLabel := sessionLabel
      sessionTimestamp := msg.sendTime
      acquisitionTimestamp := msg.sendTime
      acquisitionLabel := ty }

/-- The attribute dictionary of a constructed `HL7Message` as `dir(...)` +
`getattr` expose it to `get_metadata`: string attributes in sorted name
order (`None` rendered `""`).  The omitted attributes (`dob`, `msg_json`,
`segments`, the method `get_hl7_segment`) carry no group-name prefix and
could never pass the prefix filter. -/
def hl7Attrs (m : HL7Msg) : List (String × String) :=
  [("acquisition_label", m.acquisitionLabel),
   ("acquisition_timestamp", m.acquisitionTimestamp),
   ("msg_control_id", m.msgControlId),
   ("patient_id", m.patientId),
   ("session_label", m.sessionLabel),
   ("session_timestamp", m.sessionTimestamp),
   ("subject_code", m.subjectCode),
   ("subject_ethnicity", optStr m.subjectEthnicity),
   ("subject_firstname", optStr m.subjectFirstname),
   ("subject_lastname", optStr m.subjectLastname),
   ("subject_sex", optStr m.subjectSex),
   ("subject_type", optStr m.subjectType),
   ("type", m.type)]

/-! ## Series packaging (`pkg_series` / `create_archive`, run.py lines 450-506)

The staging filesystem is embedded explicitly: the per-acquisition staging
directories (created next to the series directory) are an association list
from directory name to staged files, and the `acquisitions` dict of the
loop keeps, per acquisition number, the staging directory and the derived
metadata in first-seen order.  `os.rename` into a staging directory
replaces an already-present file of the same name; `os.mkdir` raises when
the directory already exists.  One imaging object parsed by
`DicomFile(filepath, parse=True, ...)` is a `DcmFile`. -/

/-- One parsed imaging object: its directory-listing name and the parsed
fields `pkg_series` reads.  `attrs` is the attribute dictionary seen by
`get_metadata`; `acquisition_timestamp` is held as seconds since the epoch
(`int(dcm.acquisition_timestamp.strftime('%s'))`). -/
structure DcmFile where
  name : String
  acq_no : Option String
  acquisition_uid : String
  acquisition_timestamp : Int
  size : Nat
  attrs : List (String × String)
  patient_id : String
  study_description : String
  deriving DecidableEq, Repr

/-- The filename sentinel replacement of `pkg_series`:
`if filename.startswith('(none)'): filename = filename.replace('(none)', 'NA')`. -/
def transformName (n : String) : String :=
  if pyIsPrefixOf "(none)" n then pyReplace n "(none)" "NA" else n

/-- A file as it sits in a staging directory: renamed to `<name>.dcm` with
its modification timestamp clamped by
`max(int(dcm.acquisition_timestamp.strftime('%s')), 315561600)`. -/
structure StagedFile where
  name : String
  mtime : Int
  size : Nat
  deriving DecidableEq, Repr

/-- The staged form of an imaging object. -/
def stagedOf (f : DcmFile) : StagedFile :=
  { name := transformName f.name ++ ".dcm"
    mtime := max f.acquisition_timestamp 315561600
    size := f.size }

/-- The loop state of `pkg_series`: the `acquisitions` dict
(acquisition number, in first-seen order, to staging directory name and
metadata) and the staging directories' contents. -/
structure Staged where
  acqs : List (Option String × String × CanonicalMetadata)
  dirs : List (String × List StagedFile)

/-- `os.rename` of a staged file into a directory: a same-named file
already present is replaced. -/
def insertMember (ms : List StagedFile) (m : StagedFile) : List StagedFile :=
  if ms.any (fun x => x.name == m.name) then
    ms.map (fun x => if x.name == m.name then m else x)
  else ms ++ [m]

def moveInto (dirs : List (String × List StagedFile)) (dirName : String) (m : StagedFile) :
    List (String × List StagedFile) :=
  dirs.map (fun e => if e.1 == dirName then (e.1, insertMember e.2 m) else e)

/-- The metadata derived on first sight of a new acquisition number
(run.py lines 459-461): `get_metadata(dcm)` plus the raw `patient_id` and
the session label from `StudyDescription`. -/
def initMeta (f : DcmFile) : CanonicalMetadata :=
  let md := get_metadata f.attrs
  { md with
      patientId := some f.patient_id
      session := dictSet md.session "label" f.study_description }

/-- The body of the first loop of `pkg_series` (run.py lines 452-471) for
one file: register a new acquisition number (`os.mkdir` of the staging
directory raises `FileExistsError` when a directory of that name already
exists), then move the clamped, renamed file into its acquisition's
staging directory. -/
def stageFile (st : Staged) (f : DcmFile) : Except Err Staged :=
  match st.acqs.find? (fun e => e.1 == f.acq_no) with
  | some e => .ok { st with dirs := moveInto st.dirs e.2.1 (stagedOf f) }
  | none =>
      let dirName := f.acquisition_uid ++ ".dicom"
      if st.dirs.any (fun e => e.1 == dirName) then .error .fileExistsError
      else
        .ok { acqs := st.acqs ++ [(f.acq_no, dirName, initMeta f)]
              dirs := moveInto (st.dirs ++ [(dirName, [])]) dirName (stagedOf f) }

/-- A member of a produced archive: archived name (`<arcname>/<file name>`),
recorded modification timestamp and size. -/
structure ZipEntry where
  name : String
  mtime : Int
  size : Nat
  deriving DecidableEq, Repr

/-- A produced archive: the container comment document and the member
sequence in written order. -/
structure ZipArchive where
  comment : Option Json
  entries : List ZipEntry

/-- `create_archive(content, arcname, metadata)` (run.py lines 496-506):
the directory's files sorted ascending by size, written under
`<arcname>/<name>`, with the metadata JSON as the container comment. -/
def create_archive (arcname : String) (files : List StagedFile)
    (metadata : Option CanonicalMetadata) : ZipArchive :=
  let sorted := List.insertionSort (fun a b => a.size ≤ b.size) files
  { comment := metadata.map encodeMetadata
    entries := sorted.map (fun f => { name := arcname ++ "/" ++ f.name, mtime := f.mtime, size := f.size }) }

/-- The contents of a staging directory. -/
def dirMembers (dirs : List (String × List StagedFile)) (dirName : String) : List StagedFile :=
  ((dirs.find? (fun e => e.1 == dirName)).map (·.2)).getD []

/-- One entry of the `metadata_map` returned by `pkg_series`, together with
the archive written to `path` (`arcname` is `os.path.basename(arcdir_path)`
as in the source). -/
structure PkgEntry where
  path : String
  arcname : String
  archive : ZipArchive
  metadata : CanonicalMetadata

/-- The body of the second loop of `pkg_series` (run.py lines 473-480) for
one `acquisitions` entry: append the archive's own `files` entry to the
metadata (`metadata['acquisition']` always exists here, coming from
`get_metadata`), build the archive from the staging directory with the
metadata as comment, and record the archive path. -/
def pkgEntryOf (dirs : List (String × List StagedFile))
    (e : Option String × String × CanonicalMetadata) : PkgEntry :=
  let arcname := e.2.1
  let md :=
    { e.2.2 with
        acquisition := e.2.2.acquisition.map
          (fun a => { a with files := some [{ name := arcname ++ ".zip", type := "dicom" }] }) }
  { path := arcname ++ ".zip"
    arcname := arcname
    archive := create_archive arcname (dirMembers dirs arcname) (some md)
    metadata := md }

/-- `pkg_series(path, **kwargs)` (run.py lines 450-481): stage every file by
acquisition number, then, per acquisition in first-seen order, build its
archive and map the archive path to its metadata. -/
def pkg_series (files : List DcmFile) : Except Err (List PkgEntry) := do
  let st ← files.foldlM stageFile { acqs := [], dirs := [] }
  pure (st.acqs.map (pkgEntryOf st.dirs))

/-! ## Structured-resource adapter (`FHIRResource`, run.py lines 559-686)
and `FHIRImporter.import_data` (run.py lines 366-432)

The resource JSON is embedded as a structure carrying exactly the keys
`run.py` reads; the FHIR store (`hc_api.fhirStores.fhir.read`, which raises
on a missing resource) and the LOINC code table are parameters.  The
recursive construction of the referenced Patient resource is given explicit
fuel (Python fails such runaway recursion with `RecursionError`). -/

structure FhirCoding where
  system : String
  code : String
  display : String
  deriving DecidableEq, Repr

structure FhirQuantity where
  value : String
  unit : String
  deriving DecidableEq, Repr

/-- A resource document: the keys the adapter reads.  `patientRef` and
`subjectRef` are `raw.get('patient', {}).get('reference')` and
`raw.get('subject', {}).get('reference')`. -/
structure FhirJson where
  resourceType : String
  lastUpdated : String
  rid : String
  identifiers : List String
  namePresent : Bool
  nameGiven : List String
  nameFamily : Option String
  gender : Option String
  birthDate : Option String
  extensionUrls : List String
  patientRef : Option String
  subjectRef : Option String
  codings : List FhirCoding
  valueQuantity : Option FhirQuantity
  deriving DecidableEq, Repr

/-- `FHIRResource.get_id()` with the default `fallback_to_id=False` (the
only way the adapter calls it): the first identifier value, or `None`. -/
def fhirGetId (raw : FhirJson) : Option String :=
  match raw.identifiers with
  | [] => none
  | v :: _ => some v

/-- `FHIRResource.get_patient_name()`: `(' '.join(given).strip(), family)`
when a name is present. -/
def fhirPatientName (raw : FhirJson) : Option String × Option String :=
  if raw.namePresent then
    (some (pyStrip (String.intercalate " " raw.nameGiven)), raw.nameFamily)
  else (none, none)

/-- `datetime.strptime(value, '%Y-%m-%d')`: `TypeError` on `None`,
`ValueError` on a malformed string. -/
def strptimeYMD10 : Option String → Except Err (Nat × Nat × Nat)
  | none => .error .typeError
  | some s =>
      match digitsToNat? (s.take 4), digitsToNat? ((s.drop 5).take 2),
          digitsToNat? ((s.drop 8).take 2) with
      | some y, some mo, some d =>
          if s.length = 10 && (s.drop 4).take 1 = "-" && (s.drop 7).take 1 = "-"
              && 1 ≤ mo && mo ≤ 12 && 1 ≤ d && d ≤ 31 then
            .ok (y, mo, d)
          else .error .valueError
      | _, _, _ => .error .valueError

/-- Python's `'{}'.format(value)` on a `str`-or-`None` value. -/
def pyStrOpt : Option String → String
  | none => "None"
  | some s => s

/-- One record appended under `extra_info['observations']` (the
`last_updated` datetime is carried as its ISO source string). -/
structure ObsRecord where
  shortname : String
  value : String
  unit : String
  lastUpdated : String
  deriving DecidableEq, Repr

/-- The constructed `FHIRResource` object: the raw document plus its
derived attributes. -/
structure FHIRResource where
  raw : FhirJson
  patientId : Option String
  subjectCode : Option String
  subjectFirstname : Option String
  subjectLastname : Option String
  subjectSex : Option String
  subjectType : Option String
  dob : Option (Nat × Nat × Nat)
  sessionLabel : String
  sessionTimestamp : String
  acquisitionTimestamp : String
  acquisitionLabel : String
  extraObservations : List ObsRecord
  deriving DecidableEq, Repr

/-- `FHIRResource.__init__` (run.py lines 560-654).  For a `Patient` the
owning patient is the resource itself; otherwise the `subject` reference
(falling back to `patient`) is followed: a missing reference logs
`'No subject found, SKIPPING'` and leaves the patient unresolved (the
attributes derived from it become `None`), a non-`Patient` reference
likewise, and a `Patient/<id>` reference fetches and constructs the
referenced resource (only its raw document is read back, but its
construction may itself raise).  `dateutil.parser.parse` of the ISO
`lastUpdated` followed by `strftime('%Y-%m-%d')` is the date part of the
string; the `last_updated` datetime is carried as its ISO source string. -/
def fhirInit (store : String → String → Option FhirJson) (loincTable : String → Option String) :
    Nat → FhirJson → Except Err FHIRResource
  | 0, _ => .error .recursionError
  | fuel + 1, raw => do
      let lastUpdatedDate := raw.lastUpdated.take 10
      let patientRaw? ←
        if raw.resourceType == "Patient" then
          pure (some raw)
        else
          let subjectRef :=
            if pyTruthy raw.subjectRef then raw.subjectRef
            else if pyTruthy raw.patientRef then raw.patientRef
            else none
          match subjectRef with
          | none => pure none
          | some ref =>
              if !(pyIsPrefixOf "Patient/" ref) then pure none
              else
                match store "Patient" ((pySplit ref '/').getD 1 "") with
                | none => Except.error Err.notFoundError
                | some praw => do
                    let _ ← fhirInit store loincTable fuel praw
                    pure (some praw)
      let patientId :=
        match patientRaw? with
        | some praw => fhirGetId praw
        | none => none
      let subjectCode := if pyTruthy patientId then patientId.map (fun p => "ex" ++ p) else none
      let name :=
        match patientRaw? with
        | some praw => fhirPatientName praw
        | none => (none, none)
      let subjectSex := patientRaw?.bind (·.gender)
      let subjectType :=
        match patientRaw? with
        | some praw =>
            some (if praw.extensionUrls.contains
                "http://hl7.org/fhir/StructureDefinition/patient-animal"
              then "animal" else "human")
        | none => none
      let dob ←
        match patientRaw? with
        | some praw => (strptimeYMD10 praw.birthDate).map some
        | none => pure none
      let sessionLabel := "FHIR_" ++ pyStrOpt patientId ++ "_" ++ lastUpdatedDate
      let obs ←
        if raw.resourceType == "Observation" then
          match raw.codings.filter (fun c => c.system == "http://loinc.org") with
          | [] => pure (raw.resourceType, ([] : List ObsRecord))
          | c :: _ =>
              let label := c.code ++ " " ++ pyReplace c.display "/" "_"
              match loincTable c.code with
              | none => pure (label, [])
              | some shortname =>
                  match raw.valueQuantity with
                  | none => pure (label, [])
                  | some q =>
                      pure (label,
                        [{ shortname := shortname, value := q.value, unit := q.unit,
                           lastUpdated := raw.lastUpdated }])
        else pure (raw.resourceType, [])
      pure
        { raw := raw
          patientId := patientId
          subjectCode := subjectCode
          subjectFirstname := name.1
          subjectLastname := name.2
          subjectSex := subjectSex
          subjectType := subjectType
          dob := dob
          sessionLabel := sessionLabel
          sessionTimestamp := raw.lastUpdated
          acquisitionTimestamp := raw.lastUpdated
          acquisitionLabel := obs.1
          extraObservations := obs.2 }

/-- The attribute dictionary of a constructed `FHIRResource` as `dir(...)` +
`getattr` expose it to `get_metadata` (attributes without a group-name
prefix never pass the prefix filter; the non-string ones are omitted). -/
def fhirAttrs (r : FHIRResource) : List (String × String) :=
  [("acquisition_label", r.acquisitionLabel),
   ("acquisition_timestamp", r.acquisitionTimestamp),
   ("patient_id", optStr r.patientId),
   ("session_label", r.sessionLabel),
   ("session_timestamp", r.sessionTimestamp),
   ("subject_code", optStr r.subjectCode),
   ("subject_firstname", optStr r.subjectFirstname),
   ("subject_lastname", optStr r.subjectLastname),
   ("subject_sex", optStr r.subjectSex),
   ("subject_type", optStr r.subjectType),
   ("type", r.raw.resourceType)]

/-- The identity payload posted to the master-subject-code service. -/
structure SubjCodePayload where
  patient_id : Option String
  first_name : Option String
  last_name : Option String
  date_of_birth : String
  use_patient_id : Bool
  deriving DecidableEq, Repr

/-- A file attached to a hierarchy node. -/
structure Upload where
  collection : String
  target : Option String
  filename : String
  deriving DecidableEq, Repr

/-- The body of the `for resource_ref in fhir_refs` loop of
`FHIRImporter.import_data` (run.py lines 379-432): split the reference,
read the resource, construct the adapter object, build the identity payload
(`resource_obj.dob.strftime('%Y-%m-%d')` raises `AttributeError` when `dob`
is `None`), exchange it for a master code, normalize, inject the master
code, choose target collection and file name, resolve the hierarchy and
upload. -/
def importFhirItem (store : String → String → Option FhirJson)
    (loincTable : String → Option String) (masterCodeSvc : SubjCodePayload → String)
    (st : HierState) (ref : String) : Except Err (HierState × Upload) := do
  let (resourceType, resourceId) ←
    match pySplit ref '/' with
    | [a, b] => Except.ok (a, b)
    | _ => Except.error Err.valueError
  let resource ←
    match store resourceType resourceId with
    | some r => Except.ok r
    | none => Except.error Err.notFoundError
  let robj ← fhirInit store loincTable 1000 resource
  let dobStr ←
    match robj.dob with
    | some d => Except.ok (formatYMD d)
    | none => Except.error Err.attributeError
  let payload : SubjCodePayload :=
    { patient_id := robj.patientId
      first_name := robj.subjectFirstname
      last_name := robj.subjectLastname
      date_of_birth := dobStr
      use_patient_id := pyTruthy robj.patientId }
  let masterCode := masterCodeSvc payload
  let md0 := get_metadata (fhirAttrs robj)
  let md1 :=
    { md0 with sessionSubject := dictSet md0.sessionSubject "master_code" masterCode }
  let collection :=
    if resourceType == "Patient" then "subject"
    else if resourceType == "Encounter" then "session"
    else "acquisition"
  let filename :=
    if resourceType == "Patient" || resourceType == "Encounter" then pyLower resourceType
    else resource.rid
  let md2 :=
    if resourceType == "Patient" || resourceType == "Encounter" then
      { md1 with acquisition := none }
    else md1
  let (st', h) ← create_target_hierarchy st md2
  let target :=
    if collection == "subject" then some h.subject
    else if collection == "session" then some h.session
    else h.acquisition
  pure (st', { collection := collection, target := target, filename := filename ++ ".fhir.json" })

/-- `FHIRImporter.import_data` over a batch of resource references: the
plain `for` loop has no exception handling, so an error raised for one item
aborts the whole batch. -/
def importFhirData (store : String → String → Option FhirJson)
    (loincTable : String → Option String) (masterCodeSvc : SubjCodePayload → String)
    (st : HierState) (refs : List String) : Except Err (HierState × List Upload) :=
  refs.foldlM
    (fun acc ref => do
      let (st', up) ← importFhirItem store loincTable masterCodeSvc acc.1 ref
      pure (st', acc.2 ++ [up]))
    (st, [])

/-- The loop invariant of the staging fold of `pkg_series`, relating the
loop state to the processed prefix `p` of the file list: the acquisition
keys are the distinct acquisition numbers of `p` in first-seen order, each
staging directory is named after the first-seen file's acquisition uid, the
directory listing matches the `acquisitions` dict, every directory holds
exactly the staged files of its acquisition number, and directory names do
not collide. -/
def StagedInv (st : Staged) (p : List DcmFile) : Prop :=
  st.acqs.map (fun e => e.1) = dedupFirst (p.map (fun f => f.acq_no)) ∧
  (∀ e ∈ st.acqs, ∃ f ∈ p, f.acq_no = e.1 ∧ e.2.1 = f.acquisition_uid ++ ".dicom") ∧
  st.dirs.map (fun e => e.1) = st.acqs.map (fun e => e.2.1) ∧
  (∀ e ∈ st.acqs, dirMembers st.dirs e.2.1 =
    (p.filter (fun f => f.acq_no == e.1)).map stagedOf) ∧
  (st.acqs.map (fun e => e.2.1)).Nodup

/-- Whether the staged form of file `f` was written into archive entry `e`
(membership by archived name). -/
def archiveHasFile (e : PkgEntry) (f : DcmFile) : Bool :=
  e.archive.entries.any
    (fun z => z.name == e.arcname ++ "/" ++ (transformName f.name ++ ".dcm"))

/-! ## Sample inputs used by the witnesses -/

/-- A sample imaging object (acquisition number 1, pre-1980 timestamp). -/
def sampleDcmA : DcmFile :=
  { name := "sop1", acq_no := some "1", acquisition_uid := "uidA"
    acquisition_timestamp := 100, size := 5
    attrs := [("acquisition_label", "T1"), ("subject_code", "ex1")]
    patient_id := "P1", study_description := "Study" }

/-- A second sample imaging object of the same acquisition. -/
def sampleDcmB : DcmFile :=
  { name := "sop2", acq_no := some "1", acquisition_uid := "uidA"
    acquisition_timestamp := 400000000, size := 3
    attrs := [("acquisition_label", "T1"), ("subject_code", "ex1")]
    patient_id := "P1", study_description := "Study" }

/-- The metadata `pkg_series [sampleDcmA, sampleDcmB]` derives for
acquisition 1. -/
def samplePkgMetadata : CanonicalMetadata :=
  { session := [("label", "Study")]
    sessionSubject := [("code", "ex1")]
    acquisition := some { kvs := [("label", "T1")]
                          files := some [{ name := "uidA.dicom.zip", type := "dicom" }] }
    patientId := some "P1" }

/-- The packaging output for the sample series: one archive, members
sorted ascending by size, timestamps clamped to the 1980 floor. -/
def samplePkgOut : List PkgEntry :=
  [{ path := "uidA.dicom.zip", arcname := "uidA.dicom"
     archive :=
       { comment := some (encodeMetadata samplePkgMetadata)
         entries := [{ name := "uidA.dicom/sop2.dcm", mtime := 400000000, size := 3 },
                     { name := "uidA.dicom/sop1.dcm", mtime := 315561600, size := 5 }] }
     metadata := samplePkgMetadata }]

/-! ## Theorems -/

theorem decodeStrEntries_strEntries (d : List (String × String)) :
    decodeStrEntries (strEntries d) = some d := by
  induction d with
  | nil => rfl
  | cons kv rest ih =>
      simp only [strEntries] at ih ⊢
      simp [decodeStrEntries, ih]

theorem splitSubject_encode (kvs subj : List (String × String)) :
    splitSubject (strEntries kvs ++ [("subject", Json.obj (strEntries subj))]) =
      some (kvs, subj) := by
  induction kvs with
  | nil =>
      have h := decodeStrEntries_strEntries subj
      simp only [strEntries] at h ⊢
      simp [splitSubject, h]
  | cons kv rest ih =>
      simp only [strEntries] at ih ⊢
      simp [splitSubject, ih]

theorem decodeFileEntries_encode (fs : List FileEntry) :
    decodeFileEntries (fs.map encodeFileEntry) = some fs := by
  induction fs with
  | nil => rfl
  | cons f rest ih => simp [decodeFileEntries, encodeFileEntry, decodeFileEntry, ih]

theorem splitFiles_encode (a : AcquisitionGroup) :
    splitFiles (encodeAcquisition a) = some a := by
  obtain ⟨kvs, fs⟩ := a
  induction kvs with
  | nil =>
      cases fs with
      | none => rfl
      | some l =>
          have h := decodeFileEntries_encode l
          simp only [encodeAcquisition, strEntries] at h ⊢
          simp [splitFiles, h]
  | cons kv rest ih =>
      simp only [encodeAcquisition, strEntries] at ih ⊢
      simp [splitFiles, ih]

/-- Parsing the document produced for a canonical metadata tree recovers the
tree exactly. -/
theorem decodeMetadata_encodeMetadata (m : CanonicalMetadata) :
    decodeMetadata (encodeMetadata m) = some m := by
  obtain ⟨sess, subj, acq, pid⟩ := m
  cases acq with
  | none =>
      cases pid with
      | none => simp [encodeMetadata, decodeMetadata, splitSubject_encode, decodeTail]
      | some p => simp [encodeMetadata, decodeMetadata, splitSubject_encode, decodeTail]
  | some a =>
      cases pid with
      | none =>
          simp [encodeMetadata, decodeMetadata, splitSubject_encode, decodeTail,
            splitFiles_encode]
      | some p =>
          simp [encodeMetadata, decodeMetadata, splitSubject_encode, decodeTail,
            splitFiles_encode]


theorem dlookup_dictDel (m : List (String × String)) (key k : String) :
    dlookup (dictDel m key) k = if k = key then none else dlookup m k := by
  induction m with
  | nil => simp [dictDel, dlookup]
  | cons kv rest ih =>
      by_cases hkey : kv.1 = key
      · have h1 : dictDel (kv :: rest) key = dictDel rest key := by
          simp [dictDel, List.filter_cons, hkey]
        rw [h1, ih]
        by_cases hk : k = key
        · simp [hk]
        · have h2 : (kv.1 == k) = false := by
            simp only [beq_eq_false_iff_ne, ne_eq, hkey]
            exact fun h => hk h.symm
          simp [dlookup, List.find?_cons, h2, hk]
      · have h1 : dictDel (kv :: rest) key = kv :: dictDel rest key := by
          simp [dictDel, List.filter_cons, hkey]
        rw [h1]
        by_cases hk2 : kv.1 = k
        · have hkk : ¬ k = key := by rw [← hk2]; exact hkey
          have h2 : (kv.1 == k) = true := by simp only [beq_iff_eq, hk2]
          simp [dlookup, List.find?_cons, h2, hkk]
        · have h2 : (kv.1 == k) = false := by
            simp only [beq_eq_false_iff_ne, ne_eq]
            exact hk2
          simp only [dlookup, List.find?_cons, h2] at ih ⊢
          exact ih

theorem dlookup_mergeFold_none (s : Subject) (keys : List String)
    (m : List (String × String)) (k : String) (h : dlookup m k = none) :
    dlookup (keys.foldl (fun m key => mergeStep s m key) m) k = none := by
  induction keys generalizing m with
  | nil => exact h
  | cons key rest ih =>
      simp only [List.foldl_cons]
      apply ih
      unfold mergeStep
      by_cases hc : (pyTruthy (dlookup s.attrs key) && pyTruthy (dlookup m key)) = true
      · simp only [hc, if_true]
        rw [dlookup_dictDel]
        split
        · rfl
        · exact h
      · simp only [Bool.not_eq_true] at hc
        simp [hc, h]

theorem dlookup_mergeFold_mem (s : Subject) (keys : List String)
    (m : List (String × String)) (k : String) (hmem : k ∈ keys)
    (hs : pyTruthy (dlookup s.attrs k) = true) (hm : pyTruthy (dlookup m k) = true) :
    dlookup (keys.foldl (fun m key => mergeStep s m key) m) k = none := by
  induction keys generalizing m with
  | nil => cases hmem
  | cons key rest ih =>
      simp only [List.foldl_cons]
      by_cases hk : k = key
      · subst hk
        have hstep : mergeStep s m k = dictDel m k := by
          unfold mergeStep
          rw [hs, hm]
          rfl
        rw [hstep]
        apply dlookup_mergeFold_none
        rw [dlookup_dictDel]
        simp
      · rcases List.mem_cons.mp hmem with h | h
        · exact absurd h hk
        · have hpres : dlookup (mergeStep s m key) k = dlookup m k := by
            unfold mergeStep
            split
            · rw [dlookup_dictDel]
              simp [hk]
            · rfl
          apply ih _ h
          rw [hpres]
          exact hm

theorem get_subject_by_master_code_ambiguous (st : HierState) (code : String)
    (h : 1 < (subjectsMatching st code).length) :
    get_subject_by_master_code st code = .error .ambiguousIdentityError := by
  unfold get_subject_by_master_code
  split
  · rename_i heq
    rw [heq] at h
    simp at h
  · rename_i s heq
    rw [heq] at h
    simp at h
  · rfl

theorem get_subject_by_master_code_one (st : HierState) (code : String) (s : Subject)
    (h : subjectsMatching st code = [s]) :
    get_subject_by_master_code st code = .ok (some s) := by
  unfold get_subject_by_master_code
  rw [h]

/-- C1: when the subject query for the master code scoped to the project
returns more than one match, `create_target_hierarchy` raises the
ambiguous-identity error before any node is created: no state is returned,
so the hierarchy is unchanged. -/
theorem ambiguous_master_code_fails_and_creates_nothing
    (st : HierState) (m : CanonicalMetadata) (code : String)
    (hcode : dlookup m.sessionSubject "master_code" = some code)
    (hmany : 1 < (subjectsMatching st code).length) :
    create_target_hierarchy st m = .error .ambiguousIdentityError := by
  unfold create_target_hierarchy
  rw [hcode]
  simp only [keyIndex, get_subject_by_master_code_ambiguous st code hmany,
    Bind.bind, Except.bind]

/-- C1 witness: two existing subjects with master code `MC` in the project
make resolution fail with the ambiguous-identity error. -/
theorem ambiguous_master_code_witness :
    create_target_hierarchy
      { group := "grp", destProject := "proj"
        subjects := [{ sid := "s1", project := "proj", attrs := [("master_code", "MC")] },
                     { sid := "s2", project := "proj", attrs := [("master_code", "MC")] }]
        sessions := [], acquisitions := [] }
      { session := [("label", "L")], sessionSubject := [("master_code", "MC")]
        acquisition := none, patientId := none } = .error .ambiguousIdentityError :=
  ambiguous_master_code_fails_and_creates_nothing _ _ "MC" (by rfl) (by decide)

theorem resolveSession_subjects (st : HierState) (sid : String) (m : CanonicalMetadata)
    (st' : HierState) (s : Session) (h : resolveSession st sid m = .ok (st', s)) :
    st'.subjects = st.subjects := by
  unfold resolveSession at h
  cases hl : dlookup m.session "label" with
  | none =>
      rw [hl] at h
      simp [keyIndex, Bind.bind, Except.bind] at h
  | some label =>
      rw [hl] at h
      simp only [keyIndex, Bind.bind, Except.bind] at h
      split at h
      · simp only [pure, Except.pure, Except.ok.injEq, Prod.mk.injEq] at h
        rw [← h.1]
      · simp only [pure, Except.pure, Except.ok.injEq, Prod.mk.injEq] at h
        rw [← h.1]

theorem resolveAcquisition_subjects (st : HierState) (sid ssid : String)
    (m : CanonicalMetadata) (st' : HierState) (a : Option Acquisition)
    (h : resolveAcquisition st sid ssid m = .ok (st', a)) :
    st'.subjects = st.subjects := by
  unfold resolveAcquisition at h
  split at h
  · simp only [Bind.bind, Except.bind, pure, Except.pure, Except.ok.injEq,
      Prod.mk.injEq] at h
    rw [← h.1]
  · rename_i ag heq
    split at h
    · simp only [Bind.bind, Except.bind, pure, Except.pure, Except.ok.injEq,
        Prod.mk.injEq] at h
      rw [← h.1]
    · cases hl : dlookup m.session "label" with
      | none =>
          rw [hl] at h
          simp [keyIndex, Bind.bind, Except.bind] at h
      | some sessLabel =>
          rw [hl] at h
          cases hal : dlookup ag.kvs "label" with
          | none =>
              rw [hal] at h
              simp [keyIndex, Bind.bind, Except.bind] at h
          | some acqLabel =>
              rw [hal] at h
              simp only [keyIndex, Bind.bind, Except.bind] at h
              split at h
              · simp only [pure, Except.pure, Except.ok.injEq, Prod.mk.injEq] at h
                rw [← h.1]
              · simp only [pure, Except.pure, Except.ok.injEq, Prod.mk.injEq] at h
                rw [← h.1]

/-- C2: for every matched existing subject and freshly derived subject
metadata, each identity field in {code, firstname, lastname, sex,
ethnicity, type} that is non-empty on both sides is deleted from the fresh
payload (the first conjunct), and when an existing subject is matched the
hierarchy resolution leaves the stored subjects untouched (the second
conjunct): the existing value wins and the fresh one is discarded. -/
theorem existing_subject_identity_preserved :
    (∀ (s : Subject) (meta : List (String × String)) (key : String),
        key ∈ identityKeys →
        pyTruthy (dlookup s.attrs key) = true →
        pyTruthy (dlookup meta key) = true →
        dlookup (mergeSubjectMeta (some s) meta) key = none) ∧
    (∀ (st : HierState) (m : CanonicalMetadata) (code : String) (s : Subject)
        (st' : HierState) (hi : Hierarchy),
        dlookup m.sessionSubject "master_code" = some code →
        subjectsMatching st code = [s] →
        create_target_hierarchy st m = .ok (st', hi) →
        st'.subjects = st.subjects) := by
  constructor
  · intro s meta key hmem hs hm
    show dlookup (identityKeys.foldl (fun m key => mergeStep s m key) meta) key = none
    exact dlookup_mergeFold_mem s identityKeys meta key hmem hs hm
  · intro st m code s st' hi hcode hone h
    unfold create_target_hierarchy at h
    rw [hcode] at h
    simp only [keyIndex, Bind.bind, Except.bind] at h
    rw [get_subject_by_master_code_one st code s hone] at h
    simp only [pure, Except.pure] at h
    cases hrs : resolveSession st s.sid m with
    | error e =>
        rw [hrs] at h
        simp at h
    | ok p =>
        obtain ⟨st1, sess⟩ := p
        rw [hrs] at h
        simp only [] at h
        cases hra : resolveAcquisition st1 s.sid sess.sid m with
        | error e =>
            rw [hra] at h
            simp at h
        | ok q =>
            obtain ⟨st2, acq⟩ := q
            rw [hra] at h
            simp only [pure, Except.pure, Except.ok.injEq, Prod.mk.injEq] at h
            rw [← h.1]
            rw [resolveAcquisition_subjects st1 s.sid sess.sid m st2 acq hra]
            exact resolveSession_subjects st s.sid m st1 sess hrs

/-- C2 witness: with an existing subject carrying `code = "EX1"` matched by
master code `MC`, and fresh metadata carrying `code = "EX2"`, the merged
payload has no `code` entry, and resolving the hierarchy leaves the stored
subjects exactly as they were. -/
theorem existing_subject_identity_preserved_witness :
    dlookup
      (mergeSubjectMeta
        (some { sid := "s1", project := "proj"
                attrs := [("master_code", "MC"), ("code", "EX1")] })
        [("master_code", "MC"), ("code", "EX2")]) "code" = none ∧
    ({ group := "grp", destProject := "proj"
       subjects := [{ sid := "s1", project := "proj"
                      attrs := [("master_code", "MC"), ("code", "EX1")] }]
       sessions := [{ sid := "session-0", project := "proj", subject := "s1", label := "L" }]
       acquisitions := [] } : HierState).subjects =
      ({ group := "grp", destProject := "proj"
         subjects := [{ sid := "s1", project := "proj"
                        attrs := [("master_code", "MC"), ("code", "EX1")] }]
         sessions := [], acquisitions := [] } : HierState).subjects :=
  ⟨existing_subject_identity_preserved.1
      { sid := "s1", project := "proj", attrs := [("master_code", "MC"), ("code", "EX1")] }
      [("master_code", "MC"), ("code", "EX2")] "code" (by decide) (by rfl) (by rfl),
   existing_subject_identity_preserved.2
      { group := "grp", destProject := "proj"
        subjects := [{ sid := "s1", project := "proj"
                       attrs := [("master_code", "MC"), ("code", "EX1")] }]
        sessions := [], acquisitions := [] }
      { session := [("label", "L")]
        sessionSubject := [("master_code", "MC"), ("code", "EX2")]
        acquisition := none, patientId := none }
      "MC"
      { sid := "s1", project := "proj", attrs := [("master_code", "MC"), ("code", "EX1")] }
      { group := "grp", destProject := "proj"
        subjects := [{ sid := "s1", project := "proj"
                       attrs := [("master_code", "MC"), ("code", "EX1")] }]
        sessions := [{ sid := "session-0", project := "proj", subject := "s1", label := "L" }]
        acquisitions := [] }
      { group := "grp", project := "proj", subject := "s1", session := "session-0"
        acquisition := none }
      (by rfl) (by rfl) (by rfl)⟩

/-- C9: for the HL7 message with send time `2018-07-10T06:54:58Z` and PID
fields `{5.1: Firstname, 5.2: Lastname, 7: 19720417, 8: F, 3.1: MRN-ZEN3H}`,
the normalized metadata is exactly
`session.label = "HL7_MRN-ZEN3H_2018-07-10"`,
`session.subject = {code: exMRN-ZEN3H, firstname: Firstname, lastname:
Lastname, sex: female, type: human}`, `acquisition.label = "ORU"`, and both
timestamps equal the send time. -/
theorem hl7_end_to_end_example :
    (hl7Init
      { messageType := "ORU"
        sendTime := "2018-07-10T06:54:58Z"
        segments :=
          [{ segmentId := "MSH", fields := [("9", "51681348")] },
           { segmentId := "PID"
             fields := [("5.1", "Firstname"), ("5.2", "Lastname"), ("7", "19720417"),
                        ("8", "F"), ("0", "PID"), ("3.1", "MRN-ZEN3H"), ("3.5", "MR")] }]
        data := "TZW5kaW5nRmFj" }).map (fun m => get_metadata (hl7Attrs m)) =
    .ok
      { session := [("label", "HL7_MRN-ZEN3H_2018-07-10"),
                    ("timestamp", "2018-07-10T06:54:58Z")]
        sessionSubject := [("code", "exMRN-ZEN3H"), ("firstname", "Firstname"),
                           ("lastname", "Lastname"), ("sex", "female"), ("type", "human")]
        acquisition := some { kvs := [("label", "ORU"), ("timestamp", "2018-07-10T06:54:58Z")]
                              files := none }
        patientId := none } := by
  rfl

/-- C10: a message whose parsed segments contain no `PID` segment never
yields a constructed adapter object: the segment lookup returns the absent
marker and `HL7Message.__init__` raises (the field access on `None`, or an
earlier `IndexError`/`KeyError` from the control-id read), so no normalized
metadata is ever produced from a PID-less message. -/
theorem hl7_no_pid_raises (msg : HL7MsgJson)
    (h : ∀ seg ∈ msg.segments, seg.segmentId ≠ "PID") :
    get_hl7_segment msg.segments "PID" = none ∧ ∃ e, hl7Init msg = .error e := by
  have hfind : msg.segments.find? (fun seg => seg.segmentId == "PID") = none := by
    rw [List.find?_eq_none]
    intro seg hmem
    simp only [beq_iff_eq]
    exact h seg hmem
  have hseg : get_hl7_segment msg.segments "PID" = none := by
    simp [get_hl7_segment, hfind]
  refine ⟨hseg, ?_⟩
  unfold hl7Init
  cases hsegs : msg.segments with
  | nil =>
      exact ⟨.indexError, by simp [Bind.bind, Except.bind]⟩
  | cons s0 rest =>
      rw [hsegs] at hseg
      cases hk : dlookup s0.fields "9" with
      | none =>
          exact ⟨.keyError, by simp [keyIndex, hk, Bind.bind, Except.bind]⟩
      | some v =>
          refine ⟨.attributeError, ?_⟩
          simp only [keyIndex, hk, Bind.bind, Except.bind, hsegs, hseg]

/-- C10 witness: a concrete message with only an MSH segment has no PID
segment and its construction raises. -/
theorem hl7_no_pid_raises_witness :
    get_hl7_segment
        ({ messageType := "ORU", sendTime := "2018-07-10T06:54:58Z"
           segments := [{ segmentId := "MSH", fields := [("9", "1")] }]
           data := "d" } : HL7MsgJson).segments "PID" = none ∧
      ∃ e, hl7Init { messageType := "ORU", sendTime := "2018-07-10T06:54:58Z"
                     segments := [{ segmentId := "MSH", fields := [("9", "1")] }]
                     data := "d" } = .error e :=
  hl7_no_pid_raises _ (by decide)

/-- C3 (failing behaviour of the code): for a non-Patient resource whose
patient/subject reference is absent, the adapter logs `SKIPPING` but still
constructs the object with an unresolved patient (`patient_id` and `dob`
are `None`, first conjunct), and the import loop then crashes on
`resource_obj.dob.strftime(...)` with `AttributeError`: the two-item batch
aborts with the error instead of excluding the item and continuing (second
conjunct). -/
theorem fhir_missing_reference_aborts_batch :
    (fhirInit
        (fun t i => if t == "Observation" && i == "obs1" then
            some { resourceType := "Observation"
                   lastUpdated := "2019-07-02T13:17:37.265024+0000"
                   rid := "obs1", identifiers := [], namePresent := false
                   nameGiven := [], nameFamily := none, gender := none
                   birthDate := none, extensionUrls := [], patientRef := none
                   subjectRef := none, codings := [], valueQuantity := none }
          else none)
        (fun _ => none) 1000
        { resourceType := "Observation"
          lastUpdated := "2019-07-02T13:17:37.265024+0000"
          rid := "obs1", identifiers := [], namePresent := false
          nameGiven := [], nameFamily := none, gender := none
          birthDate := none, extensionUrls := [], patientRef := none
          subjectRef := none, codings := [], valueQuantity := none }).map
      (fun r => (r.patientId, r.dob)) = .ok (none, none) ∧
    importFhirData
      (fun t i => if t == "Observation" && i == "obs1" then
          some { resourceType := "Observation"
                 lastUpdated := "2019-07-02T13:17:37.265024+0000"
                 rid := "obs1", identifiers := [], namePresent := false
                 nameGiven := [], nameFamily := none, gender := none
                 birthDate := none, extensionUrls := [], patientRef := none
                 subjectRef := none, codings := [], valueQuantity := none }
        else none)
      (fun _ => none) (fun _ => "MC")
      { group := "grp", destProject := "proj", subjects := []
        sessions := [], acquisitions := [] }
      ["Observation/obs1", "Observation/obs1"] = .error .attributeError :=
  ⟨rfl, rfl⟩

theorem dlookup_mapReplace (d : List (String × String)) (k' v' k : String) :
    dlookup (d.map (fun kv => if kv.1 == k' then (k', v') else kv)) k =
      if k = k' then (if d.any (fun kv => kv.1 == k') then some v' else none)
      else dlookup d k := by
  induction d with
  | nil => by_cases h : k = k' <;> simp [dlookup, h]
  | cons kv rest ih =>
      simp only [List.map_cons, List.any_cons]
      by_cases hh : kv.1 = k'
      · have hb : (kv.1 == k') = true := by simp [hh]
        simp only [hb, if_true, Bool.true_or]
        by_cases hk : k = k'
        · subst hk
          simp [dlookup, List.find?_cons, ih]
        · have hb2 : (k' == k) = false := by
            simp only [beq_eq_false_iff_ne, ne_eq]
            exact fun h => hk h.symm
          have hb3 : (kv.1 == k) = false := by
            rw [hh]
            exact hb2
          simp [dlookup, List.find?_cons, hb2, hb3, if_neg hk] at ih ⊢
          exact ih
      · have hb : (kv.1 == k') = false := by
          simp only [beq_eq_false_iff_ne, ne_eq]
          exact hh
        simp only [hb, if_false, Bool.false_or]
        by_cases hk2 : kv.1 = k
        · have hb2 : (kv.1 == k) = true := by simp [hk2]
          have hkk' : ¬ k = k' := by rw [← hk2]; exact hh
          simp [dlookup, List.find?_cons, hb, hb2, if_neg hkk']
        · have hb2 : (kv.1 == k) = false := by
            simp only [beq_eq_false_iff_ne, ne_eq]
            exact hk2
          simp [dlookup, List.find?_cons, hb, hb2] at ih ⊢
          exact ih

theorem dlookup_append_single (d : List (String × String)) (k' v' k : String) :
    dlookup (d ++ [(k', v')]) k =
      match dlookup d k with
      | some v => some v
      | none => if k = k' then some v' else none := by
  induction d with
  | nil =>
      by_cases h : k = k'
      · subst h
        simp [dlookup, List.find?_cons]
      · have hb : (k' == k) = false := by
          simp only [beq_eq_false_iff_ne, ne_eq]
          exact fun he => h he.symm
        simp [dlookup, List.find?_cons, hb, h]
  | cons kv rest ih =>
      by_cases hh : kv.1 = k
      · have hb : (kv.1 == k) = true := by simp [hh]
        simp [dlookup, List.find?_cons, hb]
      · have hb : (kv.1 == k) = false := by
          simp only [beq_eq_false_iff_ne, ne_eq]
          exact hh
        simp only [List.cons_append, dlookup, List.find?_cons, hb] at ih ⊢
        exact ih

theorem dlookup_dictSet (d : List (String × String)) (k' v' k : String) :
    dlookup (dictSet d k' v') k = if k = k' then some v' else dlookup d k := by
  unfold dictSet
  by_cases ha : d.any (fun kv => kv.1 == k') = true
  · rw [if_pos ha, dlookup_mapReplace, ha]
    simp
  · rw [if_neg ha, dlookup_append_single]
    by_cases hk : k = k'
    · subst hk
      have hnone : dlookup d k = none := by
        unfold dlookup
        rw [List.find?_eq_none.mpr]
        · rfl
        · intro x hx hpx
          exact ha (List.any_eq_true.mpr ⟨x, hx, hpx⟩)
      rw [hnone]
    · cases hd : dlookup d k with
      | some v => simp [hk]
      | none => simp [hk]

theorem dlookup_dictOfList_aux (l : List (String × String)) (d : List (String × String))
    (k : String) :
    dlookup (l.foldl (fun d kv => dictSet d kv.1 kv.2) d) k =
      match l.reverse.find? (fun kv => kv.1 == k) with
      | some kv => some kv.2
      | none => dlookup d k := by
  induction l generalizing d with
  | nil => simp
  | cons a t ih =>
      simp only [List.foldl_cons, List.reverse_cons]
      rw [ih]
      rw [List.find?_append]
      cases hf : t.reverse.find? (fun kv => kv.1 == k) with
      | some kv => simp [Option.or]
      | none =>
          simp only [Option.or, dlookup_dictSet]
          by_cases hk : k = a.1
          · have hb : (a.1 == k) = true := by simp [hk]
            simp [List.find?_cons, hb, if_pos hk]
          · have hb : (a.1 == k) = false := by
              simp only [beq_eq_false_iff_ne, ne_eq]
              exact fun he => hk he.symm
            simp [List.find?_cons, hb, if_neg hk]

/-- Lookup in a dict built left to right: the value of the last assignment
to the key. -/
theorem dlookup_dictOfList (l : List (String × String)) (k : String) :
    dlookup (dictOfList l) k = (l.reverse.find? (fun kv => kv.1 == k)).map (·.2) := by
  unfold dictOfList
  rw [dlookup_dictOfList_aux]
  cases hf : l.reverse.find? (fun kv => kv.1 == k) <;> simp [dlookup]

theorem mem_dictSet (d : List (String × String)) (k v : String) (kv : String × String)
    (h : kv ∈ dictSet d k v) : kv ∈ d ∨ kv = (k, v) := by
  unfold dictSet at h
  split at h
  · rcases List.mem_map.mp h with ⟨x, hx, hxe⟩
    by_cases hb : (x.1 == k) = true
    · right
      rw [← hxe, if_pos hb]
    · left
      rwa [← hxe, if_neg hb]
  · rcases List.mem_append.mp h with h | h
    · exact Or.inl h
    · right
      simpa using h

theorem mem_dictOfList (l : List (String × String)) (kv : String × String)
    (h : kv ∈ dictOfList l) : kv ∈ l := by
  suffices haux : ∀ (l d : List (String × String)) (kv : String × String),
      kv ∈ l.foldl (fun d kv => dictSet d kv.1 kv.2) d → kv ∈ d ∨ kv ∈ l by
    rcases haux l [] kv h with h' | h'
    · cases h'
    · exact h'
  intro l
  induction l with
  | nil => intro d kv h; exact Or.inl h
  | cons a t ih =>
      intro d kv h
      simp only [List.foldl_cons] at h
      rcases ih (dictSet d a.1 a.2) kv h with h' | h'
      · rcases mem_dictSet d a.1 a.2 kv h' with h'' | h''
        · exact Or.inl h''
        · right
          rw [h'']
          exact List.mem_cons_self _ _
      · right
        exact List.mem_cons_of_mem _ h'

/-- C8 counterexample: for the record with the single attribute
`subject_subject_code = "x"`, Python's `str.replace` strips BOTH
occurrences of `subject_`, so the subject group holds the key `code`, not
the leading-prefix-stripped `subject_code` the claim requires. -/
theorem get_metadata_leading_strip_counterexample :
    ¬ leadingStripClaim [("subject_subject_code", "x")] := by
  unfold leadingStripClaim metadataGroup
  decide

/-- C8 (amended): normalization collects, per group, every attribute whose
name starts with the group prefix and whose value is non-empty, under the
name obtained by removing EVERY occurrence of the prefix (Python
`str.replace`); attributes collapsing to the same stripped name follow
dict-assignment semantics (the last one wins, first conjunct is the full
lookup characterization, second conjunct the presence of every collected
attribute); no entry of a group dict has an empty value (third conjunct);
and the subject group is nested under `session.subject` while the session
and acquisition groups form the rest of the tree (last conjunct). -/
theorem get_metadata_normalization (attrs : List (String × String)) :
    (∀ g ∈ (["subject", "session", "acquisition"] : List String), ∀ k : String,
        dlookup (groupAttrs attrs g) k =
          ((strippedGroup attrs g).reverse.find? (fun kv => kv.1 == k)).map (·.2)) ∧
    (∀ g ∈ (["subject", "session", "acquisition"] : List String), ∀ kv ∈ attrs,
        pyIsPrefixOf (g ++ "_") kv.1 = true → kv.2 ≠ "" →
        ∃ v', dlookup (groupAttrs attrs g) (pyReplace kv.1 (g ++ "_") "") = some v') ∧
    (∀ g ∈ (["subject", "session", "acquisition"] : List String),
        ∀ kv ∈ groupAttrs attrs g, kv.2 ≠ "") ∧
    ((get_metadata attrs).sessionSubject = groupAttrs attrs "subject" ∧
     (get_metadata attrs).session = dictDel (groupAttrs attrs "session") "subject" ∧
     (get_metadata attrs).acquisition =
       some { kvs := groupAttrs attrs "acquisition", files := none }) := by
  refine ⟨?_, ?_, ?_, rfl, rfl, rfl⟩
  · intro g _ k
    show dlookup (dictOfList (strippedGroup attrs g)) k = _
    exact dlookup_dictOfList _ k
  · intro g hg kv hkv hpfx hv
    have hmem : (pyReplace kv.1 (g ++ "_") "", kv.2) ∈ strippedGroup attrs g := by
      apply List.mem_map.mpr
      refine ⟨kv, List.mem_filter.mpr ⟨hkv, ?_⟩, rfl⟩
      simp [hpfx, hv]
    have hsome : ((strippedGroup attrs g).reverse.find?
        (fun e => e.1 == pyReplace kv.1 (g ++ "_") "")).isSome = true := by
      apply List.find?_isSome.mpr
      exact ⟨_, List.mem_reverse.mpr hmem, by simp⟩
    rcases Option.isSome_iff_exists.mp hsome with ⟨e, he⟩
    refine ⟨e.2, ?_⟩
    have hchar : dlookup (groupAttrs attrs g) (pyReplace kv.1 (g ++ "_") "") =
        ((strippedGroup attrs g).reverse.find?
          (fun e => e.1 == pyReplace kv.1 (g ++ "_") "")).map (·.2) :=
      dlookup_dictOfList _ _
    rw [hchar, he]
    rfl
  · intro g hg kv hkv
    have hmem : kv ∈ strippedGroup attrs g := mem_dictOfList _ _ hkv
    rcases List.mem_map.mp hmem with ⟨kv0, hkv0, hkv0e⟩
    have hcond := (List.mem_filter.mp hkv0).2
    have hv : kv0.2 ≠ "" := by
      simp only [Bool.and_eq_true, decide_eq_true_eq] at hcond
      exact hcond.2
    rw [← hkv0e]
    exact hv

/-- C8 witness: on the record
`[("subject_code", "c"), ("session_label", "L"), ("acquisition_note", "")]`
the characterization places `code = "c"` under the subject group, finds the
collected `session_label` attribute present, and the empty-valued
acquisition attribute yields no entry with an empty value. -/
theorem get_metadata_normalization_witness :
    dlookup
      (groupAttrs [("subject_code", "c"), ("session_label", "L"), ("acquisition_note", "")]
        "subject") "code" = some "c" ∧
    (∃ v', dlookup
      (groupAttrs [("subject_code", "c"), ("session_label", "L"), ("acquisition_note", "")]
        "session") (pyReplace "session_label" "session_" "") = some v') ∧
    (∀ kv ∈ groupAttrs
        [("subject_code", "c"), ("session_label", "L"), ("acquisition_note", "")]
        "acquisition", kv.2 ≠ "") := by
  refine ⟨?_, ?_, ?_⟩
  · rw [(get_metadata_normalization
      [("subject_code", "c"), ("session_label", "L"), ("acquisition_note", "")]).1
      "subject" (by decide) "code"]
    rfl
  · exact (get_metadata_normalization
      [("subject_code", "c"), ("session_label", "L"), ("acquisition_note", "")]).2.1
      "session" (by decide) ("session_label", "L") (by decide) (by decide) (by decide)
  · exact (get_metadata_normalization
      [("subject_code", "c"), ("session_label", "L"), ("acquisition_note", "")]).2.2.1
      "acquisition" (by decide)

theorem mem_insertMember (ms : List StagedFile) (x m : StagedFile)
    (h : m ∈ insertMember ms x) : m ∈ ms ∨ m = x := by
  unfold insertMember at h
  split at h
  · rcases List.mem_map.mp h with ⟨y, hy, hye⟩
    by_cases hb : (y.name == x.name) = true
    · right
      rw [← hye, if_pos hb]
    · left
      rwa [← hye, if_neg hb]
  · rcases List.mem_append.mp h with h | h
    · exact Or.inl h
    · right
      simpa using h

theorem mem_moveInto (dirs : List (String × List StagedFile)) (dn : String)
    (x : StagedFile) (d : String) (ms : List StagedFile)
    (h : (d, ms) ∈ moveInto dirs dn x) (m : StagedFile) (hm : m ∈ ms) :
    (∃ ms0, (d, ms0) ∈ dirs ∧ m ∈ ms0) ∨ m = x := by
  unfold moveInto at h
  rcases List.mem_map.mp h with ⟨e, he, hee⟩
  by_cases hb : (e.1 == dn) = true
  · rw [if_pos hb] at hee
    injection hee with hd hms
    subst hd
    subst hms
    rcases mem_insertMember e.2 x m hm with h' | h'
    · exact Or.inl ⟨e.2, he, h'⟩
    · exact Or.inr h'
  · rw [if_neg hb] at hee
    subst hee
    exact Or.inl ⟨ms, he, hm⟩

theorem stageFile_member_src (st st' : Staged) (f : DcmFile)
    (h : stageFile st f = .ok st') (d : String) (ms : List StagedFile)
    (hd : (d, ms) ∈ st'.dirs) (m : StagedFile) (hm : m ∈ ms) :
    (∃ d0 ms0, (d0, ms0) ∈ st.dirs ∧ m ∈ ms0) ∨ m = stagedOf f := by
  unfold stageFile at h
  split at h
  · rename_i e heq
    cases h
    rcases mem_moveInto st.dirs e.2.1 (stagedOf f) d ms hd m hm with ⟨ms0, h1, h2⟩ | h'
    · exact Or.inl ⟨d, ms0, h1, h2⟩
    · exact Or.inr h'
  · dsimp only [] at h
    split at h
    · cases h
    · cases h
      rcases mem_moveInto (st.dirs ++ [(f.acquisition_uid ++ ".dicom", [])])
          (f.acquisition_uid ++ ".dicom") (stagedOf f) d ms hd m hm with ⟨ms0, h1, h2⟩ | h'
      · rcases List.mem_append.mp h1 with h1' | h1'
        · exact Or.inl ⟨d, ms0, h1', h2⟩
        · have : ms0 = [] := by
            simp only [List.mem_singleton, Prod.mk.injEq] at h1'
            exact h1'.2
          rw [this] at h2
          cases h2
      · exact Or.inr h'

theorem foldlM_stage_member_src (files prev : List DcmFile) (st st' : Staged)
    (h : List.foldlM stageFile st files = .ok st')
    (hsrc : ∀ d ms, (d, ms) ∈ st.dirs → ∀ m ∈ ms, ∃ f ∈ prev, m = stagedOf f) :
    ∀ d ms, (d, ms) ∈ st'.dirs → ∀ m ∈ ms, ∃ f ∈ prev ++ files, m = stagedOf f := by
  induction files generalizing st prev with
  | nil =>
      simp only [List.foldlM_nil, pure, Except.pure, Except.ok.injEq] at h
      subst h
      simpa using hsrc
  | cons f t ih =>
      simp only [List.foldlM_cons] at h
      cases hsf : stageFile st f with
      | error e =>
          rw [hsf] at h
          simp [Bind.bind, Except.bind] at h
      | ok st1 =>
          rw [hsf] at h
          simp only [Bind.bind, Except.bind] at h
          have hsrc1 : ∀ d ms, (d, ms) ∈ st1.dirs → ∀ m ∈ ms,
              ∃ f0 ∈ prev ++ [f], m = stagedOf f0 := by
            intro d ms hd m hm
            rcases stageFile_member_src st st1 f hsf d ms hd m hm with ⟨d0, ms0, h1, h2⟩ | h'
            · rcases hsrc d0 ms0 h1 m h2 with ⟨f0, hf0, he⟩
              exact ⟨f0, List.mem_append.mpr (Or.inl hf0), he⟩
            · exact ⟨f, List.mem_append.mpr (Or.inr (List.mem_singleton.mpr rfl)), h'⟩
          have := ih (prev ++ [f]) st1 h hsrc1
          intro d ms hd m hm
          rcases this d ms hd m hm with ⟨f0, hf0, he⟩
          refine ⟨f0, ?_, he⟩
          simp only [List.mem_append, List.mem_cons, List.mem_singleton] at hf0 ⊢
          tauto

theorem pkg_series_ok (files : List DcmFile) (out : List PkgEntry)
    (h : pkg_series files = .ok out) :
    ∃ st, List.foldlM stageFile { acqs := [], dirs := [] } files = .ok st ∧
      out = st.acqs.map (pkgEntryOf st.dirs) := by
  unfold pkg_series at h
  cases hst : List.foldlM stageFile { acqs := [], dirs := [] } files with
  | error e =>
      rw [hst] at h
      simp [Bind.bind, Except.bind] at h
  | ok st =>
      rw [hst] at h
      simp only [Bind.bind, Except.bind, pure, Except.pure, Except.ok.injEq] at h
      exact ⟨st, rfl, h.symm⟩

theorem dirMembers_mem (dirs : List (String × List StagedFile)) (dn : String)
    (m : StagedFile) (hm : m ∈ dirMembers dirs dn) :
    ∃ d ms, (d, ms) ∈ dirs ∧ m ∈ ms := by
  unfold dirMembers at hm
  cases hf : dirs.find? (fun e => e.1 == dn) with
  | none =>
      rw [hf] at hm
      cases hm
  | some de =>
      rw [hf] at hm
      exact ⟨de.1, de.2, List.mem_of_find?_eq_some hf, hm⟩

/-- C5: every member of every archive produced by `pkg_series` is one of
the input files with its recorded modification timestamp equal to
`max(t, 315561600)` for that file's computed timestamp `t`; in particular
the timestamp is never below the 1980-01-01 floor, and the clamp is a
total operation — it never aborts the run. -/
theorem archived_member_timestamp_clamped (files : List DcmFile) (out : List PkgEntry)
    (h : pkg_series files = .ok out) :
    ∀ e ∈ out, ∀ z ∈ e.archive.entries,
      (∃ f ∈ files, z.name = e.arcname ++ "/" ++ (transformName f.name ++ ".dcm") ∧
        z.mtime = max f.acquisition_timestamp 315561600 ∧ z.size = f.size) ∧
      315561600 ≤ z.mtime := by
  rcases pkg_series_ok files out h with ⟨st, hst, hout⟩
  subst hout
  intro e he z hz
  rcases List.mem_map.mp he with ⟨a, ha, hae⟩
  subst hae
  have hz' : z ∈ (List.insertionSort (fun x y : StagedFile => x.size ≤ y.size)
      (dirMembers st.dirs a.2.1)).map
      (fun f => ({ name := a.2.1 ++ "/" ++ f.name, mtime := f.mtime, size := f.size } : ZipEntry)) := hz
  rcases List.mem_map.mp hz' with ⟨mf, hmf, hmfe⟩
  have hmem : mf ∈ dirMembers st.dirs a.2.1 :=
    (List.perm_insertionSort _ _).mem_iff.mp hmf
  rcases dirMembers_mem st.dirs a.2.1 mf hmem with ⟨d, ms, hdm, hmm⟩
  have hsrc := foldlM_stage_member_src files [] { acqs := [], dirs := [] } st hst
    (by intro d' ms' hd'; cases hd') d ms hdm mf hmm
  rcases hsrc with ⟨f, hf, hfe⟩
  constructor
  · refine ⟨f, by simpa using hf, ?_, ?_, ?_⟩
    · rw [← hmfe, hfe]
      rfl
    · rw [← hmfe, hfe]
      rfl
    · rw [← hmfe, hfe]
      rfl
  · rw [← hmfe, hfe]
    exact le_max_right _ _

/-- C6: for every archive produced by `pkg_series`, the comment document
stored in the container parses back to exactly the canonical metadata the
archive path is mapped to (the embedded timestamps are already their
string renderings — the "modulo timestamp formatting" of the claim). -/
theorem archive_comment_roundtrip (files : List DcmFile) (out : List PkgEntry)
    (h : pkg_series files = .ok out) :
    ∀ e ∈ out, ∃ j, e.archive.comment = some j ∧ decodeMetadata j = some e.metadata := by
  rcases pkg_series_ok files out h with ⟨st, hst, hout⟩
  subst hout
  intro e he
  rcases List.mem_map.mp he with ⟨a, ha, hae⟩
  subst hae
  exact ⟨encodeMetadata (pkgEntryOf st.dirs a).metadata, rfl,
    decodeMetadata_encodeMetadata _⟩

/-- C7: the member sequence of every archive produced by `pkg_series` is
ordered by ascending file size: any earlier member's size is at most any
later member's size. -/
theorem archive_members_sorted (files : List DcmFile) (out : List PkgEntry)
    (h : pkg_series files = .ok out) :
    ∀ e ∈ out, e.archive.entries.Pairwise (fun a b => a.size ≤ b.size) := by
  rcases pkg_series_ok files out h with ⟨st, hst, hout⟩
  subst hout
  intro e he
  rcases List.mem_map.mp he with ⟨a, ha, hae⟩
  subst hae
  haveI : IsTotal StagedFile (fun x y : StagedFile => x.size ≤ y.size) :=
    ⟨fun x y => Nat.le_total x.size y.size⟩
  haveI : IsTrans StagedFile (fun x y : StagedFile => x.size ≤ y.size) :=
    ⟨fun x y z hxy hyz => Nat.le_trans hxy hyz⟩
  have hsorted := List.sorted_insertionSort
    (fun x y : StagedFile => x.size ≤ y.size) (dirMembers st.dirs a.2.1)
  exact List.Pairwise.map _ (fun x y hxy => hxy) hsorted

/-- C5 witness: on the sample series the packaging succeeds and every
archived member carries the clamped timestamp of its source file (the
pre-1980 timestamp 100 is raised to 315561600). -/
theorem archived_member_timestamp_clamped_witness :
    pkg_series [sampleDcmA, sampleDcmB] = .ok samplePkgOut ∧
    (∀ e ∈ samplePkgOut, ∀ z ∈ e.archive.entries,
      (∃ f ∈ [sampleDcmA, sampleDcmB],
        z.name = e.arcname ++ "/" ++ (transformName f.name ++ ".dcm") ∧
        z.mtime = max f.acquisition_timestamp 315561600 ∧ z.size = f.size) ∧
      315561600 ≤ z.mtime) :=
  ⟨by rfl, archived_member_timestamp_clamped [sampleDcmA, sampleDcmB] samplePkgOut (by rfl)⟩

/-- C6 witness: on the sample series the archive's comment document parses
back to exactly the metadata the archive path is mapped to. -/
theorem archive_comment_roundtrip_witness :
    pkg_series [sampleDcmA, sampleDcmB] = .ok samplePkgOut ∧
    (∀ e ∈ samplePkgOut, ∃ j, e.archive.comment = some j ∧
      decodeMetadata j = some e.metadata) :=
  ⟨by rfl, archive_comment_roundtrip [sampleDcmA, sampleDcmB] samplePkgOut (by rfl)⟩

/-- C7 witness: on the sample series the archive's members come out in
ascending size order (3 before 5). -/
theorem archive_members_sorted_witness :
    pkg_series [sampleDcmA, sampleDcmB] = .ok samplePkgOut ∧
    (∀ e ∈ samplePkgOut, e.archive.entries.Pairwise (fun a b => a.size ≤ b.size)) :=
  ⟨by rfl, archive_members_sorted [sampleDcmA, sampleDcmB] samplePkgOut (by rfl)⟩

theorem strAppend_right_cancel {a b c : String} (h : a ++ c = b ++ c) : a = b := by
  apply String.ext
  have hd := congrArg String.data h
  rw [String.data_append, String.data_append] at hd
  exact List.append_cancel_right hd

theorem strAppend_left_cancel {a b c : String} (h : a ++ b = a ++ c) : b = c := by
  apply String.ext
  have hd := congrArg String.data h
  rw [String.data_append, String.data_append] at hd
  exact List.append_cancel_left hd

theorem mem_dedupFirst_aux {α : Type} [DecidableEq α] (l acc : List α) (x : α) :
    x ∈ l.foldl (fun acc a => if a ∈ acc then acc else acc ++ [a]) acc ↔
      x ∈ acc ∨ x ∈ l := by
  induction l generalizing acc with
  | nil => simp
  | cons a t ih =>
      simp only [List.foldl_cons]
      rw [ih]
      by_cases h : a ∈ acc
      · simp only [if_pos h, List.mem_cons]
        constructor
        · rintro (hx | hx)
          · exact Or.inl hx
          · exact Or.inr (Or.inr hx)
        · rintro (hx | hx | hx)
          · exact Or.inl hx
          · exact Or.inl (hx ▸ h)
          · exact Or.inr hx
      · simp only [if_neg h, List.mem_append, List.mem_singleton, List.mem_cons]
        tauto

theorem mem_dedupFirst {α : Type} [DecidableEq α] (l : List α) (x : α) :
    x ∈ dedupFirst l ↔ x ∈ l := by
  unfold dedupFirst
  rw [mem_dedupFirst_aux]
  simp

theorem nodup_dedupFirst_aux {α : Type} [DecidableEq α] (l acc : List α)
    (h : acc.Nodup) :
    (l.foldl (fun acc a => if a ∈ acc then acc else acc ++ [a]) acc).Nodup := by
  induction l generalizing acc with
  | nil => exact h
  | cons a t ih =>
      simp only [List.foldl_cons]
      by_cases ha : a ∈ acc
      · rw [if_pos ha]
        exact ih acc h
      · rw [if_neg ha]
        apply ih
        simpa [List.nodup_append, h] using ha

theorem nodup_dedupFirst {α : Type} [DecidableEq α] (l : List α) :
    (dedupFirst l).Nodup :=
  nodup_dedupFirst_aux l [] List.nodup_nil

theorem dedupFirst_append_single {α : Type} [DecidableEq α] (l : List α) (a : α) :
    dedupFirst (l ++ [a]) =
      if a ∈ l then dedupFirst l else dedupFirst l ++ [a] := by
  have h1 : dedupFirst (l ++ [a]) =
      if a ∈ dedupFirst l then dedupFirst l else dedupFirst l ++ [a] := by
    unfold dedupFirst
    rw [List.foldl_append]
    rfl
  rw [h1]
  by_cases h : a ∈ l
  · rw [if_pos ((mem_dedupFirst l a).mpr h), if_pos h]
  · rw [if_neg (fun hc => h ((mem_dedupFirst l a).mp hc)), if_neg h]

theorem find?_key_of_mem {α β : Type} [BEq α] [LawfulBEq α] (l : List (α × β)) (k : α)
    (h : k ∈ l.map (fun x => x.1)) :
    ∃ e, l.find? (fun x => x.1 == k) = some e ∧ e.1 = k := by
  have hsome : (l.find? (fun x => x.1 == k)).isSome = true := by
    apply List.find?_isSome.mpr
    rcases List.mem_map.mp h with ⟨e, he, hek⟩
    exact ⟨e, he, by simp [hek]⟩
  rcases Option.isSome_iff_exists.mp hsome with ⟨e, hee⟩
  refine ⟨e, hee, ?_⟩
  have := List.find?_some hee
  simpa using this

theorem find?_key_of_not_mem {α β : Type} [BEq α] [LawfulBEq α] (l : List (α × β)) (k : α)
    (h : k ∉ l.map (fun x => x.1)) :
    l.find? (fun x => x.1 == k) = none := by
  apply List.find?_eq_none.mpr
  intro x hx hpx
  simp only [beq_iff_eq] at hpx
  exact h (List.mem_map.mpr ⟨x, hx, hpx⟩)

theorem moveInto_keys (dirs : List (String × List StagedFile)) (dn : String)
    (x : StagedFile) :
    (moveInto dirs dn x).map (fun e => e.1) = dirs.map (fun e => e.1) := by
  unfold moveInto
  rw [List.map_map]
  apply List.map_congr_left
  intro e _
  by_cases heq : e.1 = dn <;> simp [heq]

theorem dirMembers_moveInto_ne (dirs : List (String × List StagedFile)) (dn : String)
    (x : StagedFile) (d : String) (hne : d ≠ dn) :
    dirMembers (moveInto dirs dn x) d = dirMembers dirs d := by
  unfold dirMembers moveInto
  rw [List.find?_map]
  have hfn : ((fun e : String × List StagedFile => e.1 == d) ∘
      (fun e : String × List StagedFile => if e.1 == dn then (e.1, insertMember e.2 x) else e)) =
      (fun e : String × List StagedFile => e.1 == d) := by
    funext e
    by_cases heq : e.1 = dn <;> simp [heq]
  rw [hfn]
  cases hf : dirs.find? (fun e => e.1 == d) with
  | none => rfl
  | some e =>
      have he1 : e.1 = d := by simpa using List.find?_some hf
      have hb : ¬ e.1 = dn := by
        rw [he1]
        exact hne
      simp [hb]

theorem dirMembers_moveInto_self (dirs : List (String × List StagedFile)) (dn : String)
    (x : StagedFile) (h : dn ∈ dirs.map (fun e => e.1)) :
    dirMembers (moveInto dirs dn x) dn = insertMember (dirMembers dirs dn) x := by
  unfold dirMembers moveInto
  rw [List.find?_map]
  have hfn : ((fun e : String × List StagedFile => e.1 == dn) ∘
      (fun e : String × List StagedFile => if e.1 == dn then (e.1, insertMember e.2 x) else e)) =
      (fun e : String × List StagedFile => e.1 == dn) := by
    funext e
    by_cases heq : e.1 = dn <;> simp [heq]
  rw [hfn]
  rcases find?_key_of_mem dirs dn h with ⟨e, hee, he1⟩
  simp [hee, he1]

theorem insertMember_append (ms : List StagedFile) (x : StagedFile)
    (h : ∀ m ∈ ms, m.name ≠ x.name) : insertMember ms x = ms ++ [x] := by
  unfold insertMember
  rw [if_neg]
  intro hc
  rcases List.any_eq_true.mp hc with ⟨m, hm, hname⟩
  exact h m hm (by simpa using hname)

theorem dirMembers_append_left (dirs rest : List (String × List StagedFile)) (d : String)
    (h : d ∈ dirs.map (fun e => e.1)) :
    dirMembers (dirs ++ rest) d = dirMembers dirs d := by
  unfold dirMembers
  rw [List.find?_append]
  rcases find?_key_of_mem dirs d h with ⟨e, hee, _⟩
  simp [hee, Option.or]

theorem dirMembers_append_right (dirs : List (String × List StagedFile)) (d : String)
    (ms : List StagedFile) (h : d ∉ dirs.map (fun e => e.1)) :
    dirMembers (dirs ++ [(d, ms)]) d = ms := by
  unfold dirMembers
  rw [List.find?_append, find?_key_of_not_mem dirs d h]
  simp [Option.or, List.find?_cons]

theorem stageFile_inv (L p : List DcmFile) (f : DcmFile) (rest : List DcmFile)
    (hL : L = p ++ f :: rest)
    (hn : (L.map (fun g => transformName g.name)).Nodup)
    (hu : ∀ g1 ∈ L, ∀ g2 ∈ L, g1.acq_no ≠ g2.acq_no →
      g1.acquisition_uid ≠ g2.acquisition_uid)
    (st : Staged) (hinv : StagedInv st p) :
    ∃ st', stageFile st f = .ok st' ∧ StagedInv st' (p ++ [f]) := by
  obtain ⟨inv1, inv2, inv3, inv4, inv5⟩ := hinv
  have hfL : f ∈ L := by
    rw [hL]
    exact List.mem_append.mpr (Or.inr (List.mem_cons_self _ _))
  have hpL : ∀ g ∈ p, g ∈ L := by
    intro g hg
    rw [hL]
    exact List.mem_append.mpr (Or.inl hg)
  have hfn : transformName f.name ∉ p.map (fun g => transformName g.name) := by
    have hsub : (p.map (fun g => transformName g.name) ++ [transformName f.name]).Sublist
        (L.map (fun g => transformName g.name)) := by
      rw [hL, List.map_append, List.map_cons]
      apply List.Sublist.append_left
      exact (List.singleton_sublist.mpr (List.mem_cons_self _ _))
    have hnd := hn.sublist hsub
    rw [List.nodup_append] at hnd
    intro hc
    exact hnd.2.2 hc (List.mem_singleton.mpr rfl)
  have keysNodup : (st.acqs.map (fun e => e.1)).Nodup := by
    rw [inv1]
    exact nodup_dedupFirst _
  cases hfound : st.acqs.find? (fun e => e.1 == f.acq_no) with
  | some e =>
      -- acquisition number already seen: move the staged file into its dir
      have he1 : e.1 = f.acq_no := by simpa using List.find?_some hfound
      have hmem_e : e ∈ st.acqs := List.mem_of_find?_eq_some hfound
      have hseen : f.acq_no ∈ p.map (fun g => g.acq_no) := by
        rw [← mem_dedupFirst, ← inv1, ← he1]
        exact List.mem_map.mpr ⟨e, hmem_e, rfl⟩
      refine ⟨{ st with dirs := moveInto st.dirs e.2.1 (stagedOf f) }, ?_, ?_, ?_, ?_, ?_, ?_⟩
      · unfold stageFile
        rw [hfound]
      · -- (1) keys unchanged
        simpa [List.map_append, dedupFirst_append_single, hseen] using inv1
      · -- (2) dir provenance
        intro e' he'
        rcases inv2 e' he' with ⟨g, hg, h1, h2⟩
        exact ⟨g, List.mem_append.mpr (Or.inl hg), h1, h2⟩
      · -- (3) dirs keys
        rw [moveInto_keys]
        exact inv3
      · -- (4) dir contents
        intro e' he'
        by_cases hdir : e'.2.1 = e.2.1
        · have he'e : e' = e :=
            List.inj_on_of_nodup_map inv5 he' hmem_e hdir
          subst he'e
          rw [hdir, dirMembers_moveInto_self st.dirs e'.2.1 (stagedOf f)
            (by rw [inv3]; exact List.mem_map.mpr ⟨e', he', rfl⟩)]
          rw [show dirMembers st.dirs e'.2.1 =
            (p.filter (fun g => g.acq_no == e'.1)).map stagedOf from inv4 e' he']
          rw [insertMember_append]
          · rw [List.filter_append, List.map_append]
            congr 1
            have hfe : (f.acq_no == e'.1) = true := by simp [he1]
            simp [List.filter_cons, hfe, stagedOf]
          · intro m hm
            rcases List.mem_map.mp hm with ⟨g, hg, hge⟩
            rw [← hge]
            intro hc
            have hname : transformName g.name = transformName f.name :=
              strAppend_right_cancel (by simpa [stagedOf] using hc)
            exact hfn (hname ▸ List.mem_map.mpr
              ⟨g, (List.mem_filter.mp hg).1, rfl⟩)
        · have he'ne : e' ≠ e := fun hc => hdir (by rw [hc])
          have hkey : e'.1 ≠ f.acq_no := by
            rw [← he1]
            intro hc
            exact he'ne (List.inj_on_of_nodup_map keysNodup he' hmem_e hc)
          rw [dirMembers_moveInto_ne st.dirs e.2.1 (stagedOf f) e'.2.1 hdir]
          rw [inv4 e' he']
          rw [List.filter_append]
          have hfe : (f.acq_no == e'.1) = false := by
            simp only [beq_eq_false_iff_ne, ne_eq]
            exact fun hc => hkey hc.symm
          simp [List.filter_cons, hfe]
      · -- (5) dir-name Nodup unchanged
        exact inv5
  | none =>
      -- new acquisition number: mkdir plus move
      have hunseen : f.acq_no ∉ p.map (fun g => g.acq_no) := by
        rw [← mem_dedupFirst, ← inv1]
        intro hc
        rcases List.mem_map.mp hc with ⟨e, he, hee⟩
        have := List.find?_eq_none.mp hfound e he
        simp [hee] at this
      have hdirfresh : (f.acquisition_uid ++ ".dicom") ∉ st.dirs.map (fun e => e.1) := by
        rw [inv3]
        intro hc
        rcases List.mem_map.mp hc with ⟨e', he', hee⟩
        rcases inv2 e' he' with ⟨g, hg, hgk, hgd⟩
        have huid : g.acquisition_uid = f.acquisition_uid :=
          strAppend_right_cancel (by rw [← hgd, hee])
        have hne : g.acq_no ≠ f.acq_no := by
          intro hc2
          exact hunseen (hc2 ▸ List.mem_map.mpr ⟨g, hg, rfl⟩)
        exact hu g (hpL g hg) f hfL hne huid
      have hguard : (st.dirs.any (fun e => e.1 == f.acquisition_uid ++ ".dicom")) = false := by
        rw [Bool.eq_false_iff]
        intro hc
        rcases List.any_eq_true.mp hc with ⟨de, hde, hname⟩
        exact hdirfresh (List.mem_map.mpr ⟨de, hde, by simpa using hname⟩)
      refine ⟨{ acqs := st.acqs ++ [(f.acq_no, f.acquisition_uid ++ ".dicom", initMeta f)]
                dirs := moveInto (st.dirs ++ [(f.acquisition_uid ++ ".dicom", [])])
                  (f.acquisition_uid ++ ".dicom") (stagedOf f) }, ?_, ?_, ?_, ?_, ?_, ?_⟩
      · unfold stageFile
        rw [hfound]
        dsimp only []
        rw [if_neg (by rw [hguard]; exact Bool.false_ne_true)]
      · -- (1) keys extended
        simp only [List.map_append, List.map_cons, List.map_nil]
        rw [dedupFirst_append_single, if_neg hunseen, inv1]
      · -- (2) dir provenance
        intro e' he'
        rcases List.mem_append.mp he' with he' | he'
        · rcases inv2 e' he' with ⟨g, hg, h1, h2⟩
          exact ⟨g, List.mem_append.mpr (Or.inl hg), h1, h2⟩
        · refine ⟨f, List.mem_append.mpr (Or.inr (List.mem_singleton.mpr rfl)), ?_, ?_⟩
          · rw [List.mem_singleton.mp he']
          · rw [List.mem_singleton.mp he']
      · -- (3) dirs keys
        rw [moveInto_keys]
        simp only [List.map_append]
        rw [inv3]
        rfl
      · -- (4) dir contents
        intro e' he'
        rcases List.mem_append.mp he' with he' | he'
        · have hne : e'.2.1 ≠ f.acquisition_uid ++ ".dicom" := by
            intro hc
            exact hdirfresh (by rw [← hc, inv3]; exact List.mem_map.mpr ⟨e', he', rfl⟩)
          rw [dirMembers_moveInto_ne _ _ _ _ hne,
            dirMembers_append_left st.dirs _ e'.2.1
              (by rw [inv3]; exact List.mem_map.mpr ⟨e', he', rfl⟩),
            inv4 e' he', List.filter_append]
          have hkey : e'.1 ≠ f.acq_no := by
            intro hc
            exact hunseen (by
              rw [← hc]
              rw [← mem_dedupFirst, ← inv1]
              exact List.mem_map.mpr ⟨e', he', rfl⟩)
          have hfe : (f.acq_no == e'.1) = false := by
            simp only [beq_eq_false_iff_ne, ne_eq]
            exact fun hc => hkey hc.symm
          simp [List.filter_cons, hfe]
        · have he'' := List.mem_singleton.mp he'
          subst he''
          rw [dirMembers_moveInto_self _ _ _
            (by simp)]
          rw [dirMembers_append_right st.dirs _ [] hdirfresh]
          have hfilter : p.filter (fun g => g.acq_no == f.acq_no) = [] := by
            rw [List.filter_eq_nil_iff]
            intro g hg hc
            exact hunseen (by
              rw [show f.acq_no = g.acq_no from (by simpa using hc : g.acq_no = f.acq_no).symm]
              exact List.mem_map.mpr ⟨g, hg, rfl⟩)
          rw [List.filter_append]
          simp [hfilter, List.filter_cons, insertMember]
      · -- (5) dir-name Nodup extended
        simp only [List.map_append]
        rw [List.nodup_append]
        refine ⟨inv5, List.nodup_singleton _, ?_⟩
        intro d hd hd2
        rw [List.mem_singleton.mp hd2] at hd
        rw [← inv3] at hd
        exact hdirfresh hd

theorem foldlM_stage_inv (L : List DcmFile)
    (hn : (L.map (fun g => transformName g.name)).Nodup)
    (hu : ∀ g1 ∈ L, ∀ g2 ∈ L, g1.acq_no ≠ g2.acq_no →
      g1.acquisition_uid ≠ g2.acquisition_uid) :
    ∀ (rem p : List DcmFile) (st : Staged), L = p ++ rem → StagedInv st p →
      ∃ st', List.foldlM stageFile st rem = .ok st' ∧ StagedInv st' L := by
  intro rem
  induction rem with
  | nil =>
      intro p st hLp hinv
      refine ⟨st, by simp [pure, Except.pure], ?_⟩
      rw [hLp, List.append_nil]
      exact hinv
  | cons f t ih =>
      intro p st hLp hinv
      rcases stageFile_inv L p f t hLp hn hu st hinv with ⟨st1, hsf, hinv1⟩
      rcases ih (p ++ [f]) st1 (by rw [hLp, List.append_assoc]; rfl) hinv1 with
        ⟨st', hfold, hinv'⟩
      refine ⟨st', ?_, hinv'⟩
      simp only [List.foldlM_cons, hsf, Bind.bind, Except.bind]
      exact hfold

theorem pkg_series_staged_inv (files : List DcmFile)
    (hn : (files.map (fun g => transformName g.name)).Nodup)
    (hu : ∀ g1 ∈ files, ∀ g2 ∈ files, g1.acq_no ≠ g2.acq_no →
      g1.acquisition_uid ≠ g2.acquisition_uid) :
    ∃ st, List.foldlM stageFile { acqs := [], dirs := [] } files = .ok st ∧
      StagedInv st files :=
  foldlM_stage_inv files hn hu files [] { acqs := [], dirs := [] } rfl
    ⟨rfl, by simp, rfl, by simp, by simp⟩

theorem archiveHasFile_iff (files : List DcmFile) (st : Staged)
    (hinvAll : StagedInv st files)
    (hn : (files.map (fun g => transformName g.name)).Nodup)
    (a : Option String × String × CanonicalMetadata) (ha : a ∈ st.acqs)
    (f : DcmFile) (hf : f ∈ files) :
    archiveHasFile (pkgEntryOf st.dirs a) f = true ↔ f.acq_no = a.1 := by
  obtain ⟨inv1, inv2, inv3, inv4, inv5⟩ := hinvAll
  have hentries : (pkgEntryOf st.dirs a).archive.entries =
      (List.insertionSort (fun x y : StagedFile => x.size ≤ y.size)
        (dirMembers st.dirs a.2.1)).map
        (fun mf => ({ name := a.2.1 ++ "/" ++ mf.name, mtime := mf.mtime, size := mf.size } :
          ZipEntry)) := rfl
  have harc : (pkgEntryOf st.dirs a).arcname = a.2.1 := rfl
  constructor
  · intro h
    rcases List.any_eq_true.mp h with ⟨z, hz, hname⟩
    rw [hentries] at hz
    rcases List.mem_map.mp hz with ⟨mf, hmf, hmfe⟩
    have hmem : mf ∈ dirMembers st.dirs a.2.1 :=
      (List.perm_insertionSort _ _).mem_iff.mp hmf
    rw [inv4 a ha] at hmem
    rcases List.mem_map.mp hmem with ⟨g, hg, hge⟩
    have hzname : z.name = a.2.1 ++ "/" ++ mf.name := by rw [← hmfe]
    have hnm : a.2.1 ++ "/" ++ mf.name =
        a.2.1 ++ "/" ++ (transformName f.name ++ ".dcm") := by
      rw [← hzname]
      rw [harc] at hname
      simpa using hname
    have hmfname : mf.name = transformName f.name ++ ".dcm" := by
      have h1 : a.2.1 ++ "/" ++ mf.name = a.2.1 ++ ("/" ++ mf.name) := by
        rw [String.append_assoc]
      have h2 : a.2.1 ++ "/" ++ (transformName f.name ++ ".dcm") =
          a.2.1 ++ ("/" ++ (transformName f.name ++ ".dcm")) := by
        rw [String.append_assoc]
      have h3 := strAppend_left_cancel (h1 ▸ h2 ▸ hnm)
      exact strAppend_left_cancel h3
    have hgname : transformName g.name = transformName f.name := by
      apply strAppend_right_cancel
      rw [show transformName g.name ++ ".dcm" = mf.name from by rw [← hge]; rfl, hmfname]
    have hgf : g = f :=
      List.inj_on_of_nodup_map hn (List.mem_filter.mp hg).1 hf hgname
    have := (List.mem_filter.mp hg).2
    rw [hgf] at this
    simpa using this
  · intro h
    apply List.any_eq_true.mpr
    have hmem : stagedOf f ∈ dirMembers st.dirs a.2.1 := by
      rw [inv4 a ha]
      exact List.mem_map.mpr ⟨f, List.mem_filter.mpr ⟨hf, by simp [h]⟩, rfl⟩
    have hsorted : stagedOf f ∈ List.insertionSort
        (fun x y : StagedFile => x.size ≤ y.size) (dirMembers st.dirs a.2.1) :=
      (List.perm_insertionSort _ _).mem_iff.mpr hmem
    refine ⟨{ name := a.2.1 ++ "/" ++ (stagedOf f).name, mtime := (stagedOf f).mtime,
              size := (stagedOf f).size }, ?_, ?_⟩
    · rw [hentries]
      exact List.mem_map.mpr ⟨stagedOf f, hsorted, rfl⟩
    · rw [harc]
      simp [stagedOf]

theorem length_filter_beq_of_nodup {α : Type} [BEq α] [LawfulBEq α] (l : List α) (a : α)
    (hnd : l.Nodup) (hmem : a ∈ l) : (l.filter (fun x => x == a)).length = 1 := by
  induction l with
  | nil => cases hmem
  | cons b t ih =>
      rw [List.filter_cons]
      rcases List.mem_cons.mp hmem with h | h
      · subst h
        rw [if_pos (by simp)]
        have hbt : a ∉ t := (List.nodup_cons.mp hnd).1
        have : t.filter (fun x => x == a) = [] := by
          rw [List.filter_eq_nil_iff]
          intro x hx hc
          exact hbt (by rw [← show x = a from by simpa using hc]; exact hx)
        rw [this]
        rfl
      · have hb : ¬ (b == a) = true := by
          simp only [beq_iff_eq]
          intro hc
          exact (List.nodup_cons.mp hnd).1 (hc ▸ h)
        rw [if_neg hb]
        exact ih (List.nodup_cons.mp hnd).2 h


/-- C4 (amended): provided no two input files collide on their staged
names (the `(none)` → `NA` sentinel replacement plus `.dcm` suffix) and
files of different acquisition numbers do not share an acquisition uid
(the staging directory name), packaging succeeds and partitions the input:
there is exactly one archive per distinct acquisition number, every input
file's staged form lands in exactly one archive, an archive never holds
files of two different acquisition numbers, and files sharing an
acquisition number land in the same archive. -/
theorem pkg_series_partitions_by_acq_no (files : List DcmFile)
    (hn : (files.map (fun g => transformName g.name)).Nodup)
    (hu : ∀ g1 ∈ files, ∀ g2 ∈ files, g1.acq_no ≠ g2.acq_no →
      g1.acquisition_uid ≠ g2.acquisition_uid) :
    ∃ out, pkg_series files = .ok out ∧
      out.length = (dedupFirst (files.map (fun f => f.acq_no))).length ∧
      (∀ f ∈ files, (out.filter (fun e => archiveHasFile e f)).length = 1) ∧
      (∀ f ∈ files, ∀ g ∈ files, ∀ e ∈ out,
        archiveHasFile e f = true → archiveHasFile e g = true →
        f.acq_no = g.acq_no) ∧
      (∀ f ∈ files, ∀ g ∈ files, f.acq_no = g.acq_no →
        ∀ e ∈ out, archiveHasFile e f = archiveHasFile e g) := by
  rcases pkg_series_staged_inv files hn hu with ⟨st, hst, hinv⟩
  refine ⟨st.acqs.map (pkgEntryOf st.dirs), ?_, ?_, ?_, ?_, ?_⟩
  · unfold pkg_series
    rw [hst]
    rfl
  · rw [List.length_map, show st.acqs.length = (st.acqs.map (fun e => e.1)).length from
      (List.length_map _ _).symm, hinv.1]
  · intro f hf
    have hkeymem : f.acq_no ∈ st.acqs.map (fun e => e.1) := by
      rw [hinv.1, mem_dedupFirst]
      exact List.mem_map.mpr ⟨f, hf, rfl⟩
    rw [List.filter_map, List.length_map]
    have hcong : st.acqs.filter ((fun e => archiveHasFile e f) ∘ pkgEntryOf st.dirs) =
        st.acqs.filter (fun a => f.acq_no == a.1) := by
      apply List.filter_congr
      intro a ha
      have hiff := archiveHasFile_iff files st hinv hn a ha f hf
      by_cases hq : f.acq_no = a.1
      · have h1 : archiveHasFile (pkgEntryOf st.dirs a) f = true := hiff.mpr hq
        have h2 : (f.acq_no == a.1) = true := by simp [hq]
        simp only [Function.comp]
        rw [h1, h2]
      · have h1 : archiveHasFile (pkgEntryOf st.dirs a) f = false := by
          rw [Bool.eq_false_iff]
          intro hc
          exact hq (hiff.mp hc)
        have h2 : (f.acq_no == a.1) = false := by
          simp only [beq_eq_false_iff_ne, ne_eq]
          exact hq
        simp only [Function.comp]
        rw [h1, h2]
    rw [hcong]
    have hswap : st.acqs.filter (fun a => f.acq_no == a.1) =
        st.acqs.filter (fun a => a.1 == f.acq_no) := by
      apply List.filter_congr
      intro a _
      by_cases hq : f.acq_no = a.1
      · simp [hq]
      · have h2 : (f.acq_no == a.1) = false := by
          simp only [beq_eq_false_iff_ne, ne_eq]
          exact hq
        have h3 : (a.1 == f.acq_no) = false := by
          simp only [beq_eq_false_iff_ne, ne_eq]
          exact fun hc => hq hc.symm
        rw [h2, h3]
    rw [hswap]
    have hlen : (st.acqs.filter (fun a => a.1 == f.acq_no)).length =
        ((st.acqs.map (fun e => e.1)).filter (fun k => k == f.acq_no)).length := by
      rw [List.filter_map, List.length_map]
      rfl
    rw [hlen]
    have hnodup : (st.acqs.map (fun e => e.1)).Nodup := by
      rw [hinv.1]
      exact nodup_dedupFirst _
    exact length_filter_beq_of_nodup _ _ hnodup hkeymem
  · intro f hf g hg e he hhf hhg
    rcases List.mem_map.mp he with ⟨a, ha, hae⟩
    subst hae
    rw [(archiveHasFile_iff files st hinv hn a ha f hf).mp hhf,
      (archiveHasFile_iff files st hinv hn a ha g hg).mp hhg]
  · intro f hf g hg hfg e he
    rcases List.mem_map.mp he with ⟨a, ha, hae⟩
    subst hae
    have h1 := archiveHasFile_iff files st hinv hn a ha f hf
    have h2 := archiveHasFile_iff files st hinv hn a ha g hg
    by_cases hq : f.acq_no = a.1
    · rw [h1.mpr hq, h2.mpr (hfg ▸ hq)]
    · have hq2 : ¬ g.acq_no = a.1 := fun hc => hq (by rw [hfg]; exact hc)
      have hb1 : archiveHasFile (pkgEntryOf st.dirs a) f = false := by
        rw [Bool.eq_false_iff]
        intro hc
        exact hq (h1.mp hc)
      have hb2 : archiveHasFile (pkgEntryOf st.dirs a) g = false := by
        rw [Bool.eq_false_iff]
        intro hc
        exact hq2 (h2.mp hc)
      rw [hb1, hb2]

/-- C4 counterexample: the files `(none)a` and `NAa` of one acquisition
collide after the sentinel replacement (`(none)a` is renamed to `NAa`), so
the second `os.rename` into the staging directory overwrites the first:
two input files go in, but the produced archive holds a single member
(the second file's timestamp 400000001 and size 3 — the first file's
bytes, size 5, are in no archive), refuting "every input file ends up in
precisely one archive — no file is dropped". -/
theorem pkg_series_drops_colliding_names :
    (pkg_series
      [{ name := "(none)a", acq_no := some "1", acquisition_uid := "u"
         acquisition_timestamp := 400000000, size := 5
         attrs := [], patient_id := "P", study_description := "S" },
       { name := "NAa", acq_no := some "1", acquisition_uid := "u"
         acquisition_timestamp := 400000001, size := 3
         attrs := [], patient_id := "P", study_description := "S" }]).map
      (fun out => out.map (fun e => (e.path, e.archive.entries.map
        (fun z => (z.name, z.mtime, z.size))))) =
    .ok [("u.dicom.zip", [("u.dicom/NAa.dcm", 400000001, 3)])] := by
  rfl

/-- C4 witness: on the sample series (two distinctly named files of one
acquisition) the partition property holds: one archive, both files in
exactly one archive each, no mixing of acquisition numbers. -/
theorem pkg_series_partitions_witness :
    ∃ out, pkg_series [sampleDcmA, sampleDcmB] = .ok out ∧
      out.length =
        (dedupFirst ([sampleDcmA, sampleDcmB].map (fun f => f.acq_no))).length ∧
      (∀ f ∈ [sampleDcmA, sampleDcmB],
        (out.filter (fun e => archiveHasFile e f)).length = 1) ∧
      (∀ f ∈ [sampleDcmA, sampleDcmB], ∀ g ∈ [sampleDcmA, sampleDcmB], ∀ e ∈ out,
        archiveHasFile e f = true → archiveHasFile e g = true →
        f.acq_no = g.acq_no) ∧
      (∀ f ∈ [sampleDcmA, sampleDcmB], ∀ g ∈ [sampleDcmA, sampleDcmB],
        f.acq_no = g.acq_no →
        ∀ e ∈ out, archiveHasFile e f = archiveHasFile e g) :=
  pkg_series_partitions_by_acq_no [sampleDcmA, sampleDcmB] (by decide) (by decide)
